import Mathlib

/-!
# SHA3-256 software benchmark (`accelerator/sha3_bench.c`)

A shallow embedding of the software Keccak-f[1600] permutation `keccakf` and
of the single-shot SHA3-256 sponge `sha3_256_sw`, followed by theorems about
them.

Conventions of the embedding:

* a `uint64_t` is a `Nat` below `2 ^ 64`; every operation that can leave that
  range in C (`<<`, `~`) is reduced modulo `2 ^ 64` explicitly;
* a `uint8_t` is a `Nat` below `256`; a byte read from memory or stored into
  `temp` is reduced modulo `256`;
* a C array is a `List Nat`; `a[i]` is `a.getD i 0` and `a[i] = v` is
  `a.set i v`;
* a counted `for` loop is `forLoop`, a strided one is `forStep`;
* the `while` loop of `sha3_256_sw` is a well-founded recursion on the
  remaining length, so the embedded function is total;
* `sha3_256_sw` returns the values of all its variables on exit (`Run`),
  together with two ghost fields that count the calls of `keccakf` and log
  the input indices read; the digest is the field `output`;
* a second copy of the program (`keccakfChk`, `sha3_256_swChk`, ...) checks
  every array access against the bounds of its array and is undefined as
  soon as one access is out of range.
-/

namespace Sha3Bench

/-! ## Loops -/

/-- The loop `for (i = start; i < start + count; i++) s = body i s`. -/
def forLoop {σ : Type} (body : Nat → σ → σ) : Nat → Nat → σ → σ
  | 0, _, s => s
  | count + 1, start, s => forLoop body count (start + 1) (body start s)

/-- The loop `for (j = start; j < start + count * step; j += step) s = body j s`. -/
def forStep {σ : Type} (body : Nat → σ → σ) (step : Nat) : Nat → Nat → σ → σ
  | 0, _, s => s
  | count + 1, start, s => forStep body step count (start + step) (body start s)

/-! ## Constants and tables -/

/-- The macro `SHA3_256_RATE`. -/
def SHA3_256_RATE : Nat := 136

/-- The table `keccakf_rndc[24]` of round constants. -/
def keccakf_rndc : List Nat :=
  [0x0000000000000001, 0x0000000000008082, 0x800000000000808a,
   0x8000000080008000, 0x000000000000808b, 0x0000000080000001,
   0x8000000080008081, 0x8000000000008009, 0x000000000000008a,
   0x0000000000000088, 0x0000000080008009, 0x000000008000000a,
   0x000000008000808b, 0x800000000000008b, 0x8000000000008089,
   0x8000000000008003, 0x8000000000008002, 0x8000000000000080,
   0x000000000000800a, 0x800000008000000a, 0x8000000080008081,
   0x8000000000008080, 0x0000000080000001, 0x8000000080008008]

/-- The table `keccakf_rotc[24]` of rotation offsets. -/
def keccakf_rotc : List Nat :=
  [1, 3, 6, 10, 15, 21, 28, 36, 45, 55, 2, 14,
   27, 41, 56, 8, 25, 43, 62, 18, 39, 61, 20, 44]

/-- The table `keccakf_piln[24]` of destination lanes. -/
def keccakf_piln : List Nat :=
  [10, 7, 11, 17, 18, 3, 5, 16, 8, 21, 24, 4,
   15, 23, 19, 13, 12, 2, 20, 14, 22, 9, 6, 1]

/-! ## 64-bit word operations -/

/-- The macro `ROTL64(x, y)`, that is `((x) << (y)) | ((x) >> (64 - (y)))` on
`uint64_t`: the left shift is truncated to 64 bits. -/
def ROTL64 (x y : Nat) : Nat :=
  ((x <<< y) % 2 ^ 64) ||| (x >>> (64 - y))

/-- The operator `~` on a `uint64_t`. -/
def not64 (x : Nat) : Nat :=
  (x ^^^ 0xFFFFFFFFFFFFFFFF) % 2 ^ 64

/-! ## The permutation `keccakf`

The steps that rotate take the rotation as a parameter `rot`; the program
itself is the instance `rot = ROTL64`. -/

/-- Theta, first loop: `bc[i] = st[i] ^ st[i+5] ^ st[i+10] ^ st[i+15] ^ st[i+20]`
for `i = 0..4`. -/
def thetaParity (st bc : List Nat) : List Nat :=
  forLoop (fun i bc =>
    bc.set i (st.getD i 0 ^^^ st.getD (i + 5) 0 ^^^ st.getD (i + 10) 0
      ^^^ st.getD (i + 15) 0 ^^^ st.getD (i + 20) 0)) 5 0 bc

/-- Theta, second loop: for `i = 0..4`, `t = bc[(i+4)%5] ^ ROTL64(bc[(i+1)%5], 1)`
and then `st[j + i] ^= t` for `j = 0, 5, 10, 15, 20`. -/
def thetaApply (rot : Nat → Nat → Nat) (bc st : List Nat) : List Nat :=
  forLoop (fun i st =>
    let t := bc.getD ((i + 4) % 5) 0 ^^^ rot (bc.getD ((i + 1) % 5) 0) 1
    forStep (fun j st => st.set (j + i) (st.getD (j + i) 0 ^^^ t)) 5 5 0 st) 5 0 st

/-- The theta step of one round (lines 36-42). The scratch array `bc` is
uninitialised in C and fully written by the first loop before it is read; it
is modelled as zero-filled. -/
def theta (rot : Nat → Nat → Nat) (st : List Nat) : List Nat :=
  thetaApply rot (thetaParity st [0, 0, 0, 0, 0]) st

/-- One iteration of the rho+pi loop on the pair `(t, st)`:
`j = keccakf_piln[i]; bc[0] = st[j]; st[j] = ROTL64(t, keccakf_rotc[i]); t = bc[0]`. -/
def rhoPiStep (rot : Nat → Nat → Nat) (i : Nat) (p : Nat × List Nat) : Nat × List Nat :=
  let j := keccakf_piln.getD i 0
  let bc0 := p.2.getD j 0
  (bc0, p.2.set j (rot p.1 (keccakf_rotc.getD i 0)))

/-- The combined rho+pi pass of one round (lines 43-49): `t = st[1]`, then 24
iterations of `rhoPiStep`. -/
def rhoPi (rot : Nat → Nat → Nat) (st : List Nat) : List Nat :=
  (forLoop (rhoPiStep rot) 24 0 (st.getD 1 0, st)).2

/-- Chi on the row starting at lane `j`: copy the row into `bc`, then
`st[j + i] ^= (~bc[(i+1)%5]) & bc[(i+2)%5]` for `i = 0..4`. The five entries
of `bc` are all written by the copy loop. -/
def chiRow (j : Nat) (st : List Nat) : List Nat :=
  let bc := forLoop (fun i bc => bc.set i (st.getD (j + i) 0)) 5 0 [0, 0, 0, 0, 0]
  forLoop (fun i st =>
    st.set (j + i)
      (st.getD (j + i) 0 ^^^ (not64 (bc.getD ((i + 1) % 5) 0) &&& bc.getD ((i + 2) % 5) 0)))
    5 0 st

/-- The chi step of one round (lines 50-55): `chiRow` for `j = 0, 5, 10, 15, 20`. -/
def chi (st : List Nat) : List Nat :=
  forStep chiRow 5 5 0 st

/-- The iota step of one round (line 56): `st[0] ^= keccakf_rndc[round]`. -/
def iota (round : Nat) (st : List Nat) : List Nat :=
  st.set 0 (st.getD 0 0 ^^^ keccakf_rndc.getD round 0)

/-- The body of the round loop of `keccakf` (lines 36-56). -/
def keccakRound (rot : Nat → Nat → Nat) (round : Nat) (st : List Nat) : List Nat :=
  iota round (chi (rhoPi rot (theta rot st)))

/-- The round loop `for (round = 0; round < 24; round++)` of `keccakf`, over a
given rotation. -/
def keccakfWith (rot : Nat → Nat → Nat) (st : List Nat) : List Nat :=
  forLoop (keccakRound rot) 24 0 st

/-- The function `keccakf` (lines 33-58). -/
def keccakf (st : List Nat) : List Nat :=
  keccakfWith ROTL64 st

/-! ## The sponge `sha3_256_sw` -/

/-- The locals of `sha3_256_sw` that the absorbing loops update, with two
ghost fields: `calls` counts the calls of `keccakf` made so far and `reads`
lists the input indices read so far, most recent first. -/
structure Sponge where
  state : List Nat
  idx : Nat
  calls : Nat
  reads : List Nat

/-- The read `input[idx++]` of one `uint8_t`, returning the byte and the
advanced cursor. In C a read past the end of the buffer is undefined; this
version yields `0` there so that the function is total, and `readInputChk`
below is undefined there. -/
def readInput (input : List Nat) (s : Sponge) : Nat × Sponge :=
  (input.getD s.idx 0 % 256, { s with idx := s.idx + 1, reads := s.idx :: s.reads })

/-- Lines 66-68: `word = 0; for j = 0..7: word |= ((uint64_t)input[idx++]) << (8 * j)`. -/
def readWord (input : List Nat) (s : Sponge) : Nat × Sponge :=
  forLoop (fun j (p : Nat × Sponge) =>
    let b := readInput input p.2
    (p.1 ||| (b.1 <<< (8 * j)) % 2 ^ 64, b.2)) 8 0 (0, s)

/-- Lines 65-70: for `i = 0..rate_bytes/8 - 1`, read a word and `state[i] ^= word`. -/
def absorbInput (input : List Nat) (s : Sponge) : Sponge :=
  forLoop (fun i s =>
    let w := readWord input s
    { w.2 with state := w.2.state.set i (w.2.state.getD i 0 ^^^ w.1) })
    (SHA3_256_RATE / 8) 0 s

/-- Lines 64-73: `while (len >= rate_bytes) { absorb a block; keccakf(state);
len -= rate_bytes; }`, returning the remaining `len` and the locals. -/
def absorbLoop (input : List Nat) (len : Nat) (s : Sponge) : Nat × Sponge :=
  if SHA3_256_RATE ≤ len then
    let s1 := absorbInput input s
    absorbLoop input (len - SHA3_256_RATE)
      { s1 with state := keccakf s1.state, calls := s1.calls + 1 }
  else (len, s)
termination_by len
decreasing_by
  simp only [SHA3_256_RATE] at *
  omega

/-- Lines 74-76: `temp[136] = {0}; for i = 0..len-1: temp[i] = input[idx++]`. -/
def fillTemp (input : List Nat) (len : Nat) (s : Sponge) : List Nat × Sponge :=
  forLoop (fun i (p : List Nat × Sponge) =>
    let b := readInput input p.2
    (p.1.set i b.1, b.2)) len 0 (List.replicate SHA3_256_RATE 0, s)

/-- Lines 77-78: `temp[len] = 0x06; temp[rate_bytes - 1] |= 0x80;`. -/
def padTemp (len : Nat) (temp : List Nat) : List Nat :=
  let temp := temp.set len 0x06
  temp.set (SHA3_256_RATE - 1) ((temp.getD (SHA3_256_RATE - 1) 0 ||| 0x80) % 256)

/-- Lines 80-82: `word = 0; for j = 0..7: word |= ((uint64_t)temp[i * 8 + j]) << (8 * j)`. -/
def tempWord (temp : List Nat) (i : Nat) : Nat :=
  forLoop (fun j word => word ||| (temp.getD (i * 8 + j) 0 <<< (8 * j)) % 2 ^ 64) 8 0 0

/-- Lines 79-84: for `i = 0..rate_bytes/8 - 1`, `state[i] ^= word` with the
word read from `temp`. -/
def absorbTemp (temp state : List Nat) : List Nat :=
  forLoop (fun i state => state.set i (state.getD i 0 ^^^ tempWord temp i))
    (SHA3_256_RATE / 8) 0 state

/-- Lines 86-89: `output[i * 8 + j] = (state[i] >> (8 * j)) & 0xFF` for
`i = 0..3`, `j = 0..7`. -/
def squeeze (state output : List Nat) : List Nat :=
  forLoop (fun i output =>
    forLoop (fun j output =>
      output.set (i * 8 + j) ((state.getD i 0 >>> (8 * j)) &&& 0xFF)) 8 0 output) 4 0 output

/-- The variables of `sha3_256_sw` when it returns: the caller's `output`
buffer, the locals `state`, `temp`, `len`, `idx`, and the ghost fields of
`Sponge`. -/
structure Run where
  output : List Nat
  state : List Nat
  temp : List Nat
  len : Nat
  idx : Nat
  calls : Nat
  reads : List Nat

/-- The function `sha3_256_sw(input, len, output)` (lines 60-90). -/
def sha3_256_sw (input : List Nat) (len : Nat) (output : List Nat) : Run :=
  let a := absorbLoop input len
    { state := List.replicate 25 0, idx := 0, calls := 0, reads := [] }
  let f := fillTemp input a.1 a.2
  let temp := padTemp a.1 f.1
  let state := keccakf (absorbTemp temp f.2.state)
  { output := squeeze state output, state := state, temp := temp, len := a.1,
    idx := f.2.idx, calls := f.2.calls + 1, reads := f.2.reads }

/-! ## The program with every array access checked

The same code once more, with every array read and write checked against the
bounds of the array: `rd` and `wr` are undefined (`none`) outside the array,
and an undefined access makes the whole run undefined. -/

/-- The read `a[i]`, undefined outside the array. -/
def rd (a : List Nat) (i : Nat) : Option Nat :=
  a[i]?

/-- The write `a[i] = v`, undefined outside the array. -/
def wr (a : List Nat) (i v : Nat) : Option (List Nat) :=
  if i < a.length then some (a.set i v) else none

/-- The loop `forLoop` over a body that may be undefined. -/
def forLoopM {σ : Type} (body : Nat → σ → Option σ) : Nat → Nat → σ → Option σ
  | 0, _, s => some s
  | count + 1, start, s => (body start s).bind (forLoopM body count (start + 1))

/-- The loop `forStep` over a body that may be undefined. -/
def forStepM {σ : Type} (body : Nat → σ → Option σ) (step : Nat) : Nat → Nat → σ → Option σ
  | 0, _, s => some s
  | count + 1, start, s => (body start s).bind (forStepM body step count (start + step))

/-- Checked `thetaParity` (line 37). -/
def thetaParityChk (st bc : List Nat) : Option (List Nat) :=
  forLoopM (fun i bc => do
    let a0 ← rd st i
    let a1 ← rd st (i + 5)
    let a2 ← rd st (i + 10)
    let a3 ← rd st (i + 15)
    let a4 ← rd st (i + 20)
    wr bc i (a0 ^^^ a1 ^^^ a2 ^^^ a3 ^^^ a4)) 5 0 bc

/-- Checked `thetaApply` (lines 38-42). -/
def thetaApplyChk (rot : Nat → Nat → Nat) (bc st : List Nat) : Option (List Nat) :=
  forLoopM (fun i st => do
    let b4 ← rd bc ((i + 4) % 5)
    let b1 ← rd bc ((i + 1) % 5)
    forStepM (fun j st => do
      let a ← rd st (j + i)
      wr st (j + i) (a ^^^ (b4 ^^^ rot b1 1))) 5 5 0 st) 5 0 st

/-- Checked `theta`. -/
def thetaChk (rot : Nat → Nat → Nat) (st : List Nat) : Option (List Nat) := do
  let bc ← thetaParityChk st [0, 0, 0, 0, 0]
  thetaApplyChk rot bc st

/-- Checked `rhoPiStep` (lines 45-48), with the two table reads. -/
def rhoPiStepChk (rot : Nat → Nat → Nat) (i : Nat) (p : Nat × List Nat) :
    Option (Nat × List Nat) := do
  let j ← rd keccakf_piln i
  let bc0 ← rd p.2 j
  let r ← rd keccakf_rotc i
  let st ← wr p.2 j (rot p.1 r)
  pure (bc0, st)

/-- Checked `rhoPi` (lines 43-49). -/
def rhoPiChk (rot : Nat → Nat → Nat) (st : List Nat) : Option (List Nat) := do
  let t ← rd st 1
  let p ← forLoopM (rhoPiStepChk rot) 24 0 (t, st)
  pure p.2

/-- Checked `chiRow` (lines 51-54). -/
def chiRowChk (j : Nat) (st : List Nat) : Option (List Nat) := do
  let bc ← forLoopM (fun i bc => do
    let a ← rd st (j + i)
    wr bc i a) 5 0 [0, 0, 0, 0, 0]
  forLoopM (fun i st => do
    let a ← rd st (j + i)
    let b1 ← rd bc ((i + 1) % 5)
    let b2 ← rd bc ((i + 2) % 5)
    wr st (j + i) (a ^^^ (not64 b1 &&& b2))) 5 0 st

/-- Checked `chi` (lines 50-55). -/
def chiChk (st : List Nat) : Option (List Nat) :=
  forStepM chiRowChk 5 5 0 st

/-- Checked `iota` (line 56), with the table read. -/
def iotaChk (round : Nat) (st : List Nat) : Option (List Nat) := do
  let a ← rd st 0
  let c ← rd keccakf_rndc round
  wr st 0 (a ^^^ c)

/-- Checked `keccakRound`. -/
def keccakRoundChk (rot : Nat → Nat → Nat) (round : Nat) (st : List Nat) :
    Option (List Nat) := do
  let s1 ← thetaChk rot st
  let s2 ← rhoPiChk rot s1
  let s3 ← chiChk s2
  iotaChk round s3

/-- Checked `keccakf`. -/
def keccakfChk (st : List Nat) : Option (List Nat) :=
  forLoopM (keccakRoundChk ROTL64) 24 0 st

/-- Checked `readInput`: the read `input[idx++]` is undefined past the end of
the buffer. -/
def readInputChk (input : List Nat) (s : Sponge) : Option (Nat × Sponge) := do
  let b ← rd input s.idx
  pure (b % 256, { s with idx := s.idx + 1, reads := s.idx :: s.reads })

/-- Checked `readWord` (lines 66-68). -/
def readWordChk (input : List Nat) (s : Sponge) : Option (Nat × Sponge) :=
  forLoopM (fun j (p : Nat × Sponge) => do
    let b ← readInputChk input p.2
    pure (p.1 ||| (b.1 <<< (8 * j)) % 2 ^ 64, b.2)) 8 0 (0, s)

/-- Checked `absorbInput` (lines 65-70). -/
def absorbInputChk (input : List Nat) (s : Sponge) : Option Sponge :=
  forLoopM (fun i s => do
    let w ← readWordChk input s
    let a ← rd w.2.state i
    let st ← wr w.2.state i (a ^^^ w.1)
    pure { w.2 with state := st }) (SHA3_256_RATE / 8) 0 s

/-- Checked `absorbLoop` (lines 64-73). -/
def absorbLoopChk (input : List Nat) (len : Nat) (s : Sponge) : Option (Nat × Sponge) :=
  if SHA3_256_RATE ≤ len then
    match absorbInputChk input s with
    | none => none
    | some s1 =>
      match keccakfChk s1.state with
      | none => none
      | some st =>
        absorbLoopChk input (len - SHA3_256_RATE)
          { s1 with state := st, calls := s1.calls + 1 }
  else some (len, s)
termination_by len
decreasing_by
  simp only [SHA3_256_RATE] at *
  omega

/-- Checked `fillTemp` (lines 74-76). -/
def fillTempChk (input : List Nat) (len : Nat) (s : Sponge) : Option (List Nat × Sponge) :=
  forLoopM (fun i (p : List Nat × Sponge) => do
    let b ← readInputChk input p.2
    let temp ← wr p.1 i b.1
    pure (temp, b.2)) len 0 (List.replicate SHA3_256_RATE 0, s)

/-- Checked `padTemp` (lines 77-78). -/
def padTempChk (len : Nat) (temp : List Nat) : Option (List Nat) := do
  let temp ← wr temp len 0x06
  let a ← rd temp (SHA3_256_RATE - 1)
  wr temp (SHA3_256_RATE - 1) ((a ||| 0x80) % 256)

/-- Checked `tempWord` (lines 80-82). -/
def tempWordChk (temp : List Nat) (i : Nat) : Option Nat :=
  forLoopM (fun j word => do
    let b ← rd temp (i * 8 + j)
    pure (word ||| (b <<< (8 * j)) % 2 ^ 64)) 8 0 0

/-- Checked `absorbTemp` (lines 79-84). -/
def absorbTempChk (temp state : List Nat) : Option (List Nat) :=
  forLoopM (fun i state => do
    let w ← tempWordChk temp i
    let a ← rd state i
    wr state i (a ^^^ w)) (SHA3_256_RATE / 8) 0 state

/-- Checked `squeeze` (lines 86-89). -/
def squeezeChk (state output : List Nat) : Option (List Nat) :=
  forLoopM (fun i output =>
    forLoopM (fun j output => do
      let a ← rd state i
      wr output (i * 8 + j) ((a >>> (8 * j)) &&& 0xFF)) 8 0 output) 4 0 output

/-- Checked `sha3_256_sw`: defined exactly when every array access of the
call is inside its array. -/
def sha3_256_swChk (input : List Nat) (len : Nat) (output : List Nat) : Option Run := do
  let a ← absorbLoopChk input len
    { state := List.replicate 25 0, idx := 0, calls := 0, reads := [] }
  let f ← fillTempChk input a.1 a.2
  let temp ← padTempChk a.1 f.1
  let absorbed ← absorbTempChk temp f.2.state
  let state ← keccakfChk absorbed
  let out ← squeezeChk state output
  pure { output := out, state := state, temp := temp, len := a.1,
         idx := f.2.idx, calls := f.2.calls + 1, reads := f.2.reads }

/-! ## Specification-level definitions

These follow the wording of the specification, not the code. -/

/-- Little-endian serialisation of lanes 0..3: digest byte `k` is byte `k % 8`
of lane `k / 8`. -/
def specDigest (state : List Nat) : List Nat :=
  (List.range 32).map fun k => state.getD (k / 8) 0 / 256 ^ (k % 8) % 256

/-- The little-endian word formed from a list of bytes: the first byte is the
least significant. -/
def leWord64 (bytes : List Nat) : Nat :=
  bytes.foldr (fun b acc => b + 256 * acc) 0

/-- XOR the 17 little-endian 64-bit words of a 136-byte block into lanes
0..16; lanes 17..24 are kept. -/
def specXorBlock (block state : List Nat) : List Nat :=
  state.mapIdx fun i lane =>
    if i < 17 then lane ^^^ leWord64 ((block.drop (8 * i)).take 8) else lane

/-- The padded final block built from the `r < 136` leftover bytes: the
leftover bytes, then `0x06`, zero bytes and a final `0x80`; for `r = 135` the
single padding byte `0x86`. -/
def specPad (tail : List Nat) : List Nat :=
  if tail.length < 135 then
    tail ++ 0x06 :: (List.replicate (134 - tail.length) 0 ++ [0x80])
  else tail ++ [0x86]

/-- The full 136-byte blocks of a message, in order. -/
def specBlocks (x : List Nat) : List (List Nat) :=
  (List.range (x.length / 136)).map fun k => (x.drop (136 * k)).take 136

/-- The single-shot sponge over the padded message: absorb every full block,
then the padded final block, each followed by the permutation. -/
def specSponge (x : List Nat) : List Nat :=
  let absorbed :=
    (specBlocks x).foldl (fun st block => keccakf (specXorBlock block st))
      (List.replicate 25 0)
  keccakf (specXorBlock (specPad (x.drop (136 * (x.length / 136)))) absorbed)

/-- The SHA3-256 digest of a message according to the specification. -/
def specSha3 (x : List Nat) : List Nat :=
  specDigest (specSponge x)

/-- The column parity `C[x]` of a state: the XOR of the five lanes of column `x`. -/
def columnParity (st : List Nat) (x : Nat) : Nat :=
  st.getD x 0 ^^^ st.getD (x + 5) 0 ^^^ st.getD (x + 10) 0 ^^^ st.getD (x + 15) 0
    ^^^ st.getD (x + 20) 0

/-- The chain of source lanes of the rho+pi pass: `s 0 = 1` and
`s (i + 1) = keccakf_piln[i]`. -/
def piChain (i : Nat) : Nat :=
  (1 :: keccakf_piln).getD i 0

/-- The sequence of 136-byte blocks presented to the permutation for a
message: its full blocks, then the padded final block. -/
def specBlockSeq (x : List Nat) : List (List Nat) :=
  specBlocks x ++ [specPad (x.drop (136 * (x.length / 136)))]

/-! ## Closed forms used in the proofs -/

/-- The little-endian word of the 8 input bytes at offset `o`, as `readWord`
reads them. -/
def inputWord (input : List Nat) (o : Nat) : Nat :=
  leWord64 ((List.range 8).map fun j => input.getD (o + j) 0 % 256)

/-- The state after lines 65-70 have absorbed the 136 input bytes at offset `o`. -/
def xorInputAt (input : List Nat) (o : Nat) (state : List Nat) : List Nat :=
  state.mapIdx fun m lane => if m < 17 then lane ^^^ inputWord input (o + 8 * m) else lane

/-- The state after `n` iterations of the `while` loop that start at offset `o`. -/
def absorbFrom (input : List Nat) : Nat → Nat → List Nat → List Nat
  | 0, _, state => state
  | n + 1, o, state => absorbFrom input n (o + 136) (keccakf (xorInputAt input o state))

/-! # Theorems -/

/-! ## Loop lemmas -/

theorem forLoop_inv {σ : Type} (body : Nat → σ → σ) :
    ∀ (n start : Nat) (s : σ) (P : Nat → σ → Prop), P 0 s →
      (∀ k t, k < n → P k t → P (k + 1) (body (start + k) t)) →
      P n (forLoop body n start s) := by
  intro n
  induction n with
  | zero => intro start s P h0 _; exact h0
  | succ n ih =>
    intro start s P h0 hstep
    show P (n + 1) (forLoop body n (start + 1) (body start s))
    apply ih (start + 1) (body start s) (fun k t => P (k + 1) t)
    · exact hstep 0 s (Nat.succ_pos n) h0
    · intro k t hk hP
      have := hstep (k + 1) t (Nat.succ_lt_succ hk) hP
      rwa [show start + (k + 1) = start + 1 + k by omega] at this

theorem forLoop_congr {σ : Type} (body body' : Nat → σ → σ) :
    ∀ (n start : Nat) (s : σ),
      (∀ k t, k < n → body (start + k) t = body' (start + k) t) →
      forLoop body n start s = forLoop body' n start s := by
  intro n
  induction n with
  | zero => intro start s _; rfl
  | succ n ih =>
    intro start s h
    show forLoop body n (start + 1) (body start s) = forLoop body' n (start + 1) (body' start s)
    rw [show body start s = body' start s from h 0 s (Nat.succ_pos n)]
    apply ih
    intro k t hk
    have := h (k + 1) t (Nat.succ_lt_succ hk)
    rwa [show start + (k + 1) = start + 1 + k by omega] at this

theorem getElem?_set_map (l : List Nat) (i j a : Nat) :
    (l.set i a)[j]? = (l[j]?).map (fun old => if i = j then a else old) := by
  rw [List.getElem?_set]
  by_cases hij : i = j
  · subst hij
    by_cases hl : i < l.length
    · simp [hl, List.getElem?_eq_getElem hl]
    · simp [hl, List.getElem?_eq_none (Nat.le_of_not_lt hl)]
  · simp [hij]

/-- A loop that updates entry `base + j` from its own old value, for
`j = 0..n-1`. -/
theorem forLoop_set_getElem? (h : Nat → Nat → Nat) (base n : Nat) (l : List Nat) (m : Nat) :
    (forLoop (fun j l => l.set (base + j) (h j (l.getD (base + j) 0))) n 0 l)[m]? =
      (l[m]?).map (fun old => if base ≤ m ∧ m < base + n then h (m - base) old else old) := by
  revert m
  apply forLoop_inv _ n 0 l (fun k t => ∀ m, t[m]? =
      (l[m]?).map (fun old => if base ≤ m ∧ m < base + k then h (m - base) old else old))
  · intro m
    have : ¬ (base ≤ m ∧ m < base) := by omega
    cases l[m]? <;> simp [this]
  · intro k t _ ht m
    rw [getElem?_set_map, List.getD_eq_getElem?_getD, ht, ht]
    rcases hm : l[m]? with _ | v
    · simp
    · simp only [Option.map_some', Nat.zero_add]
      by_cases e : base + k = m
      · subst e
        simp [hm]
      · simp only [e, if_false]
        have : (base ≤ m ∧ m < base + (k + 1)) ↔ (base ≤ m ∧ m < base + k) := by omega
        simp only [this]

/-! ## The squeeze loop -/

theorem squeeze_getElem? (state output : List Nat) (m : Nat) :
    (squeeze state output)[m]? =
      (output[m]?).map (fun old =>
        if m < 32 then (state.getD (m / 8) 0 >>> (8 * (m % 8))) &&& 0xFF else old) := by
  revert m
  apply forLoop_inv _ 4 0 output (fun i t => ∀ m, t[m]? =
      (output[m]?).map (fun old =>
        if m < 8 * i then (state.getD (m / 8) 0 >>> (8 * (m % 8))) &&& 0xFF else old))
  · intro m
    cases output[m]? <;> simp
  · intro i t _ ht m
    have key := forLoop_set_getElem?
      (fun j _ => (state.getD (0 + i) 0 >>> (8 * j)) &&& 0xFF) ((0 + i) * 8) 8 t m
    refine key.trans ?_
    rw [ht]
    rcases output[m]? with _ | v
    · rfl
    · simp only [Option.map_some', Nat.zero_add]
      congr 1
      by_cases h1 : i * 8 ≤ m ∧ m < i * 8 + 8
      · have e1 : m / 8 = i := by omega
        have e2 : m % 8 = m - i * 8 := by omega
        have e3 : m < 8 * (i + 1) := by omega
        simp only [h1, and_self, if_true, e3, e1, e2]
      · simp only [h1, if_false]
        by_cases h2 : m < 8 * i
        · have e3 : m < 8 * (i + 1) := by omega
          simp only [h2, e3, if_true]
        · have e3 : ¬ m < 8 * (i + 1) := by omega
          simp only [h2, e3, if_false]

theorem digest_byte_eq (x j : Nat) : (x >>> (8 * j)) &&& 0xFF = x / 256 ^ j % 256 := by
  rw [Nat.shiftRight_eq_div_pow, Nat.pow_mul]
  exact Nat.and_pow_two_sub_one_eq_mod _ 8

theorem specDigest_length (state : List Nat) : (specDigest state).length = 32 := by
  simp [specDigest]

theorem specDigest_getElem? (state : List Nat) (m : Nat) :
    (specDigest state)[m]? =
      if m < 32 then some (state.getD (m / 8) 0 / 256 ^ (m % 8) % 256) else none := by
  unfold specDigest
  by_cases h : m < 32
  · rw [List.getElem?_map, List.getElem?_range h]
    simp [h]
  · rw [List.getElem?_eq_none (by simpa using h)]
    simp [h]

/-- The squeeze loop overwrites the first 32 bytes of the buffer with the
little-endian serialisation of lanes 0..3 and keeps the rest. -/
theorem squeeze_eq (state output : List Nat) (h : 32 ≤ output.length) :
    squeeze state output = specDigest state ++ output.drop 32 := by
  apply List.ext_getElem?
  intro m
  rw [squeeze_getElem?, List.getElem?_append, specDigest_length, specDigest_getElem?]
  by_cases hm : m < 32
  · have hl : m < output.length := by omega
    simp only [hm, if_true, List.getElem?_eq_getElem hl, Option.map_some', digest_byte_eq]
  · simp only [hm, if_false, List.getElem?_drop]
    rw [show 32 + (m - 32) = m by omega]
    cases output[m]? <;> rfl

/-! ## The digest in terms of the final state -/

theorem absorbLoop_lt (input : List Nat) (len : Nat) (s : Sponge) (h : len < 136) :
    absorbLoop input len s = (len, s) := by
  rw [absorbLoop, if_neg]
  simp only [SHA3_256_RATE]
  omega

theorem absorbLoop_ge (input : List Nat) (len : Nat) (s : Sponge) (h : 136 ≤ len) :
    absorbLoop input len s =
      absorbLoop input (len - 136)
        { absorbInput input s with
          state := keccakf (absorbInput input s).state,
          calls := (absorbInput input s).calls + 1 } := by
  rw [absorbLoop, if_pos]
  · rfl
  · exact h

theorem run_output (input : List Nat) (len : Nat) (output : List Nat) :
    (sha3_256_sw input len output).output =
      squeeze (sha3_256_sw input len output).state output := by
  simp only [sha3_256_sw]

theorem run_state_indep (input : List Nat) (len : Nat) (output output' : List Nat) :
    (sha3_256_sw input len output).state = (sha3_256_sw input len output').state := by
  simp only [sha3_256_sw]

theorem run_digest (input : List Nat) (len : Nat) (output : List Nat)
    (h : output.length = 32) :
    (sha3_256_sw input len output).output = specDigest (sha3_256_sw input len []).state := by
  rw [run_output, squeeze_eq _ _ (by omega), List.drop_eq_nil_of_le (by omega),
    List.append_nil, run_state_indep input len output []]

theorem run_state_len_zero (input output : List Nat) :
    (sha3_256_sw input 0 output).state = (sha3_256_sw [] 0 []).state := by
  simp only [sha3_256_sw, absorbLoop_lt _ 0 _ (show 0 < 136 by omega), fillTemp, forLoop]

/-! ## Words read byte by byte -/

theorem or_shift_eq (w b k : Nat) (hw : w < 256 ^ k) (hb : b < 256) (hk : k < 8) :
    (w ||| (b <<< (8 * k)) % 2 ^ 64) = w + b * 256 ^ k ∧ w + b * 256 ^ k < 256 ^ (k + 1) := by
  have e : (2 : Nat) ^ (8 * k) = 256 ^ k := by rw [Nat.pow_mul]
  have hpos : 0 < 256 ^ k := Nat.pow_pos (by decide)
  have hb' : b * 256 ^ k ≤ 255 * 256 ^ k := Nat.mul_le_mul_right _ (by omega)
  have hlt : w + b * 256 ^ k < 256 ^ (k + 1) := by
    rw [Nat.pow_succ]
    omega
  have h64 : 256 ^ (k + 1) ≤ 2 ^ 64 := by
    rw [show (2 : Nat) ^ 64 = 256 ^ 8 by norm_num]
    exact Nat.pow_le_pow_right (by decide) (by omega)
  refine ⟨?_, hlt⟩
  rw [Nat.shiftLeft_eq, e, Nat.mod_eq_of_lt (by omega), Nat.or_comm, Nat.mul_comm b,
    Nat.add_comm, ← e]
  rw [← e] at hw
  exact (Nat.mul_add_lt_is_or hw b).symm

theorem leWord64_concat (l : List Nat) (b : Nat) :
    leWord64 (l ++ [b]) = leWord64 l + b * 256 ^ l.length := by
  induction l with
  | nil => simp [leWord64]
  | cons a l ih =>
    simp only [leWord64, List.cons_append, List.foldr_cons, List.length_cons] at ih ⊢
    rw [ih, Nat.pow_succ]
    ring

/-- The byte-by-byte OR loop builds the little-endian word of the 8 bytes. -/
theorem or_loop_eq (f : Nat → Nat) (hf : ∀ j, j < 8 → f j < 256) :
    forLoop (fun j w => w ||| (f j <<< (8 * j)) % 2 ^ 64) 8 0 0 =
      leWord64 ((List.range 8).map f) := by
  have := forLoop_inv (fun j w => w ||| (f j <<< (8 * j)) % 2 ^ 64) 8 0 0
    (fun k w => w = leWord64 ((List.range k).map f) ∧ w < 256 ^ k)
    ⟨by simp [leWord64], by simp⟩
    (by
      intro k w hk ⟨hw, hlt⟩
      have h := or_shift_eq w (f k) k hlt (hf k hk) hk
      simp only [Nat.zero_add]
      rw [h.1]
      refine ⟨?_, h.2⟩
      rw [List.range_succ, List.map_append, List.map_singleton, leWord64_concat, hw]
      simp)
  exact this.1

theorem tempWord_eq (temp : List Nat) (i : Nat)
    (h : ∀ j, j < 8 → temp.getD (i * 8 + j) 0 < 256) :
    tempWord temp i = leWord64 ((List.range 8).map fun j => temp.getD (i * 8 + j) 0) :=
  or_loop_eq (fun j => temp.getD (i * 8 + j) 0) h

/-- Eight consecutive entries of a list, as a slice. -/
theorem slice_eq (l : List Nat) (p : Nat) (h : p + 8 ≤ l.length) :
    (l.drop p).take 8 = (List.range 8).map fun j => l.getD (p + j) 0 := by
  apply List.ext_getElem?
  intro m
  by_cases hm : m < 8
  · rw [List.getElem?_take_of_lt hm, List.getElem?_drop, List.getElem?_map,
      List.getElem?_range hm, Option.map_some', List.getD_eq_getElem?_getD,
      List.getElem?_eq_getElem (show p + m < l.length by omega)]
    rfl
  · rw [List.getElem?_eq_none (by simp; omega), List.getElem?_eq_none (by simp; omega)]

/-- The effect of `readWord` on the locals, and the word it returns. -/
theorem readWord_spec (input : List Nat) (s : Sponge) :
    (readWord input s).1 =
        leWord64 ((List.range 8).map fun j => input.getD (s.idx + j) 0 % 256) ∧
      (readWord input s).2.state = s.state ∧
      (readWord input s).2.idx = s.idx + 8 ∧
      (readWord input s).2.calls = s.calls ∧
      (readWord input s).2.reads = (List.range' s.idx 8).reverse ++ s.reads := by
  have := forLoop_inv
    (fun j (p : Nat × Sponge) =>
      let b := readInput input p.2
      (p.1 ||| (b.1 <<< (8 * j)) % 2 ^ 64, b.2)) 8 0 (0, s)
    (fun k p =>
      p.1 = leWord64 ((List.range k).map fun j => input.getD (s.idx + j) 0 % 256) ∧
      p.1 < 256 ^ k ∧ p.2.state = s.state ∧ p.2.idx = s.idx + k ∧ p.2.calls = s.calls ∧
      p.2.reads = (List.range' s.idx k).reverse ++ s.reads)
    ⟨by simp [leWord64], by simp, rfl, rfl, rfl, by simp⟩
    (by
      intro k p hk ⟨hw, hlt, hst, hidx, hc, hr⟩
      have h := or_shift_eq p.1 (input.getD p.2.idx 0 % 256) k hlt
        (Nat.mod_lt _ (by decide)) hk
      simp only [Nat.zero_add, readInput]
      rw [h.1]
      refine ⟨?_, h.2, hst, by rw [hidx]; omega, hc, ?_⟩
      · rw [List.range_succ, List.map_append, List.map_singleton, leWord64_concat, hw, hidx]
        simp
      · rw [List.range'_1_concat, List.reverse_append, hr, hidx]
        simp)
  exact ⟨this.1, this.2.2.1, this.2.2.2.1, this.2.2.2.2.1, this.2.2.2.2.2⟩

/-! ## The absorbing loops -/

theorem absorbInput_spec (input : List Nat) (s : Sponge) :
    (absorbInput input s).state = xorInputAt input s.idx s.state ∧
      (absorbInput input s).idx = s.idx + 136 ∧
      (absorbInput input s).calls = s.calls ∧
      (absorbInput input s).reads = (List.range' s.idx 136).reverse ++ s.reads := by
  have key : (∀ m, (absorbInput input s).state[m]? = (s.state[m]?).map (fun lane =>
        if m < 17 then lane ^^^ inputWord input (s.idx + 8 * m) else lane)) ∧
      (absorbInput input s).idx = s.idx + 8 * 17 ∧ (absorbInput input s).calls = s.calls ∧
      (absorbInput input s).reads = (List.range' s.idx (8 * 17)).reverse ++ s.reads :=
    forLoop_inv
    (fun i s =>
      let w := readWord input s
      { w.2 with state := w.2.state.set i (w.2.state.getD i 0 ^^^ w.1) }) 17 0 s
    (fun k t =>
      (∀ m, t.state[m]? = (s.state[m]?).map (fun lane =>
        if m < k then lane ^^^ inputWord input (s.idx + 8 * m) else lane)) ∧
      t.idx = s.idx + 8 * k ∧ t.calls = s.calls ∧
      t.reads = (List.range' s.idx (8 * k)).reverse ++ s.reads)
    ⟨by intro m; cases s.state[m]? <;> simp, rfl, rfl, by simp⟩
    (by
      intro k t _ ⟨hst, hidx, hc, hr⟩
      obtain ⟨w1, w2, w3, w4, w5⟩ := readWord_spec input t
      simp only [Nat.zero_add]
      refine ⟨?_, by rw [w3, hidx]; omega, by rw [w4, hc], ?_⟩
      · intro m
        rw [getElem?_set_map, w2, w1, List.getD_eq_getElem?_getD, hst, hst, hidx]
        by_cases e : k = m
        · subst e
          rcases s.state[k]? with _ | v
          · rfl
          · simp [inputWord]
        · rcases s.state[m]? with _ | v
          · rfl
          · simp only [Option.map_some', e, if_false]
            by_cases h1 : m < k
            · simp [h1, show m < k + 1 by omega]
            · simp [h1, show ¬ m < k + 1 by omega]
      · rw [w5, hr, hidx, ← List.append_assoc, ← List.reverse_append,
          show 8 * (k + 1) = 8 + 8 * k by omega, List.range'_append_1])
  refine ⟨?_, key.2.1, key.2.2.1, key.2.2.2⟩
  apply List.ext_getElem?
  intro m
  rw [key.1 m, xorInputAt, List.getElem?_mapIdx]

/-- The `while` loop runs `len / 136` times, leaves `len % 136` bytes, and
advances the cursor by 136 per iteration. -/
theorem absorbLoop_spec (input : List Nat) (len : Nat) :
    ∀ s : Sponge,
      (absorbLoop input len s).1 = len % 136 ∧
      (absorbLoop input len s).2.state = absorbFrom input (len / 136) s.idx s.state ∧
      (absorbLoop input len s).2.idx = s.idx + 136 * (len / 136) ∧
      (absorbLoop input len s).2.calls = s.calls + len / 136 ∧
      (absorbLoop input len s).2.reads =
        (List.range' s.idx (136 * (len / 136))).reverse ++ s.reads := by
  induction len using Nat.strong_induction_on with
  | _ len ih =>
    intro s
    by_cases h : len < 136
    · rw [absorbLoop_lt _ _ _ h, Nat.mod_eq_of_lt h, Nat.div_eq_of_lt h]
      exact ⟨rfl, rfl, rfl, rfl, by simp⟩
    · have hge : 136 ≤ len := Nat.le_of_not_lt h
      obtain ⟨a1, a2, a3, a4⟩ := absorbInput_spec input s
      have hd : len / 136 = (len - 136) / 136 + 1 := by omega
      have hm : len % 136 = (len - 136) % 136 := by omega
      obtain ⟨i1, i2, i3, i4, i5⟩ := ih (len - 136) (by omega)
        { absorbInput input s with
          state := keccakf (absorbInput input s).state,
          calls := (absorbInput input s).calls + 1 }
      rw [absorbLoop_ge _ _ _ hge, hd, hm]
      refine ⟨i1, ?_, ?_, ?_, ?_⟩
      · rw [i2]
        simp only [absorbFrom, a1, a2]
      · rw [i3]
        simp only [a2]
        omega
      · rw [i4]
        simp only [a3]
        omega
      · rw [i5]
        simp only [a2, a4]
        rw [← List.append_assoc, ← List.reverse_append,
          show 136 * ((len - 136) / 136 + 1) = 136 * ((len - 136) / 136) + 136 by omega,
          List.range'_append_1]

/-! ## The final padded block -/

/-- The effect of the copy loop of lines 75-76 on `temp` and on the locals. -/
theorem fillTemp_spec (input : List Nat) (len : Nat) (s : Sponge) :
    (∀ m, (fillTemp input len s).1[m]? = ((List.replicate 136 0)[m]?).map (fun old =>
        if m < len then input.getD (s.idx + m) 0 % 256 else old)) ∧
      (fillTemp input len s).2.state = s.state ∧
      (fillTemp input len s).2.idx = s.idx + len ∧
      (fillTemp input len s).2.calls = s.calls ∧
      (fillTemp input len s).2.reads = (List.range' s.idx len).reverse ++ s.reads :=
  forLoop_inv
    (fun i (p : List Nat × Sponge) =>
      let b := readInput input p.2
      (p.1.set i b.1, b.2)) len 0 (List.replicate 136 0, s)
    (fun k p =>
      (∀ m, p.1[m]? = ((List.replicate 136 0)[m]?).map (fun old =>
        if m < k then input.getD (s.idx + m) 0 % 256 else old)) ∧
      p.2.state = s.state ∧ p.2.idx = s.idx + k ∧ p.2.calls = s.calls ∧
      p.2.reads = (List.range' s.idx k).reverse ++ s.reads)
    ⟨by intro m; cases (List.replicate 136 0)[m]? <;> simp, rfl, rfl, rfl, by simp⟩
    (by
      intro k p _ ⟨ht, hst, hidx, hc, hr⟩
      simp only [Nat.zero_add, readInput]
      refine ⟨?_, hst, by rw [hidx]; omega, hc, ?_⟩
      · intro m
        rw [getElem?_set_map, ht, hidx]
        rcases (List.replicate 136 0)[m]? with _ | v
        · rfl
        · simp only [Option.map_some']
          by_cases e : k = m
          · subst e
            simp
          · simp only [e, if_false]
            by_cases h1 : m < k
            · simp [h1, show m < k + 1 by omega]
            · simp [h1, show ¬ m < k + 1 by omega]
      · rw [List.range'_1_concat, List.reverse_append, hr, hidx]
        simp)

/-- Every entry of the padded block that the code builds, for `r < 136`
leftover bytes read at offset `o`. -/
theorem padTemp_getElem? (input : List Nat) (r : Nat) (s : Sponge) (hr : r < 136) (m : Nat) :
    (padTemp r (fillTemp input r s).1)[m]? =
      if m < 136 then
        some (if m = 135 then (if r = 135 then 0x86 else 0x80)
          else if m = r then 0x06
          else if m < r then input.getD (s.idx + m) 0 % 256 else 0)
      else none := by
  have hf := (fillTemp_spec input r s).1
  simp only [padTemp, SHA3_256_RATE, getElem?_set_map, List.getD_eq_getElem?_getD, hf,
    List.getElem?_replicate]
  by_cases h136 : m < 136
  · simp only [h136, if_true, Option.map_some', show (135 : Nat) < 136 by decide]
    by_cases h135 : m = 135
    · subst h135
      by_cases hr135 : r = 135
      · subst hr135
        simp
      · simp [hr135, show ¬ (135 < r) by omega]
    · have h135' : ¬ (136 - 1 = m) := by omega
      simp only [h135, h135', if_false]
      by_cases hmr : m = r
      · subst hmr
        simp
      · have hmr' : ¬ (r = m) := fun e => hmr e.symm
        simp only [hmr, hmr', if_false]
  · simp [h136]

theorem specPad_getElem? (tail : List Nat) (h : tail.length < 136) (m : Nat) :
    (specPad tail)[m]? =
      if m < 136 then
        some (if m = 135 then (if tail.length = 135 then 0x86 else 0x80)
          else if m = tail.length then 0x06
          else if m < tail.length then tail.getD m 0 else 0)
      else none := by
  unfold specPad
  by_cases hr : tail.length < 135
  · simp only [hr, if_true, List.getElem?_append, List.getElem?_cons, List.length_cons,
      List.length_append, List.length_replicate, List.getElem?_replicate,
      List.length_singleton, List.getD_eq_getElem?_getD]
    by_cases h1 : m < tail.length
    · have : m < 136 := by omega
      have : ¬ m = 135 := by omega
      have : ¬ m = tail.length := by omega
      simp [*, List.getElem?_eq_getElem h1]
    · by_cases h2 : m = tail.length
      · have : m < 136 := by omega
        have : ¬ m = 135 := by omega
        have : ¬ tail.length = 135 := by omega
        simp [*]
      · by_cases h3 : m < 135
        · have : m < 136 := by omega
          have : ¬ m = 135 := by omega
          have : ¬ (m - tail.length = 0) := by omega
          have : m - tail.length - 1 < 134 - tail.length := by omega
          simp [*]
        · by_cases h4 : m = 135
          · have : ¬ (135 - tail.length = 0) := by omega
            have : ¬ (135 - tail.length - 1 < 134 - tail.length) := by omega
            have : 135 - tail.length - 1 - (134 - tail.length) = 0 := by omega
            have : ¬ tail.length = 135 := by omega
            subst h4
            simp [*]
          · have : ¬ m < 136 := by omega
            have : ¬ (m - tail.length = 0) := by omega
            have : ¬ (m - tail.length - 1 < 134 - tail.length) := by omega
            have : ¬ (m - tail.length - 1 - (134 - tail.length) = 0) := by omega
            simp [*]
  · have e : tail.length = 135 := by omega
    simp only [hr, if_false]
    rw [List.getElem?_append]
    by_cases h1 : m < tail.length
    · have h2 : m < 136 := by omega
      have h3 : ¬ m = 135 := by omega
      have h4 : ¬ m = tail.length := by omega
      simp only [h1, h2, h3, h4, if_true, if_false, List.getD_eq_getElem?_getD,
        List.getElem?_eq_getElem h1, Option.getD_some]
    · simp only [h1, if_false]
      by_cases h4 : m = 135
      · have h5 : m - tail.length = 0 := by omega
        have h6 : m < 136 := by omega
        subst h4
        simp [e]
      · have h5 : ¬ m < 136 := by omega
        have h6 : 1 ≤ m - tail.length := by omega
        simp only [h5, if_false]
        exact List.getElem?_eq_none (by simpa using h6)

theorem length_eq_of_getElem? (l : List Nat) (n : Nat)
    (h : ∀ m, (l[m]? = none ↔ ¬ m < n)) : l.length = n := by
  have h1 := (h l.length).1 (List.getElem?_eq_none (Nat.le_refl _))
  have h2 : l[n]? = none := (h n).2 (Nat.lt_irrefl n)
  have h3 := List.getElem?_eq_none_iff.1 h2
  omega

theorem padTemp_length (input : List Nat) (r : Nat) (s : Sponge) (hr : r < 136) :
    (padTemp r (fillTemp input r s).1).length = 136 := by
  apply length_eq_of_getElem?
  intro m
  rw [padTemp_getElem? input r s hr m]
  by_cases h : m < 136 <;> simp [h]

theorem padTemp_lt (input : List Nat) (r : Nat) (s : Sponge) (hr : r < 136) (m : Nat) :
    (padTemp r (fillTemp input r s).1).getD m 0 < 256 := by
  rw [List.getD_eq_getElem?_getD, padTemp_getElem? input r s hr m]
  by_cases h : m < 136
  · simp only [h, if_true, Option.getD_some]
    have := Nat.mod_lt (input.getD (s.idx + m) 0) (show 0 < 256 by decide)
    split_ifs <;> omega
  · simp [h]

/-- The block built by lines 74-78 is the padded block of the specification. -/
theorem padTemp_eq_specPad (input : List Nat) (r : Nat) (s : Sponge) (hr : r < 136)
    (hlen : s.idx + r ≤ input.length) (hb : ∀ b ∈ input, b < 256) :
    padTemp r (fillTemp input r s).1 = specPad ((input.drop s.idx).take r) := by
  have hl : ((input.drop s.idx).take r).length = r := by
    rw [List.length_take, List.length_drop]
    omega
  apply List.ext_getElem?
  intro m
  rw [padTemp_getElem? input r s hr m, specPad_getElem? _ (by omega) m, hl]
  by_cases h : m < r
  · have e : ((input.drop s.idx).take r).getD m 0 = input.getD (s.idx + m) 0 % 256 := by
      have hm : s.idx + m < input.length := by omega
      rw [List.getD_eq_getElem?_getD, List.getElem?_take_of_lt h, List.getElem?_drop,
        List.getD_eq_getElem?_getD, List.getElem?_eq_getElem hm, Option.getD_some,
        Nat.mod_eq_of_lt (hb _ (List.getElem_mem hm))]
    rw [e]
  · simp only [h, if_false]

theorem forLoop_set_zero_getElem? (h : Nat → Nat → Nat) (n : Nat) (l : List Nat) (m : Nat) :
    (forLoop (fun j l => l.set j (h j (l.getD j 0))) n 0 l)[m]? =
      (l[m]?).map (fun old => if m < n then h m old else old) := by
  have e : (fun j (l : List Nat) => l.set j (h j (l.getD j 0))) =
      (fun j l => l.set (0 + j) (h j (l.getD (0 + j) 0))) := by
    funext j l
    rw [Nat.zero_add]
  rw [e, forLoop_set_getElem? h 0 n l m]
  simp

/-- Lines 79-84 XOR the 17 little-endian words of a 136-byte block of bytes
into lanes 0..16. -/
theorem absorbTemp_eq (temp state : List Nat) (hl : temp.length = 136)
    (hb : ∀ m, temp.getD m 0 < 256) :
    absorbTemp temp state = specXorBlock temp state := by
  apply List.ext_getElem?
  intro m
  have e : SHA3_256_RATE / 8 = 17 := by norm_num [SHA3_256_RATE]
  rw [absorbTemp, e,
    forLoop_set_zero_getElem? (fun i old => old ^^^ tempWord temp i) 17 state m,
    specXorBlock, List.getElem?_mapIdx]
  congr 1
  funext old
  by_cases h : m < 17
  · simp only [h, if_true]
    rw [tempWord_eq temp m (fun j _ => hb _), slice_eq temp (8 * m) (by omega),
      Nat.mul_comm m 8]
  · simp only [h, if_false]

/-- The loop body of lines 65-70 XORs the 17 little-endian words of the
136 input bytes at the cursor into lanes 0..16. -/
theorem xorInputAt_eq (input : List Nat) (o : Nat) (state : List Nat)
    (hlen : o + 136 ≤ input.length) (hb : ∀ b ∈ input, b < 256) :
    xorInputAt input o state = specXorBlock ((input.drop o).take 136) state := by
  have hl : ((input.drop o).take 136).length = 136 := by
    rw [List.length_take, List.length_drop]
    omega
  unfold xorInputAt specXorBlock
  congr 1
  funext m old
  by_cases h : m < 17
  · simp only [h, if_true]
    rw [slice_eq _ (8 * m) (by omega), inputWord]
    congr 2
    apply List.map_congr_left
    intro j hj
    have hj8 : j < 8 := List.mem_range.1 hj
    have hm : o + (8 * m + j) < input.length := by omega
    rw [List.getD_eq_getElem?_getD, List.getD_eq_getElem?_getD,
      List.getElem?_take_of_lt (show 8 * m + j < 136 by omega), List.getElem?_drop,
      List.getElem?_eq_getElem hm, Option.getD_some,
      show o + 8 * m + j = o + (8 * m + j) by omega, List.getElem?_eq_getElem hm,
      Option.getD_some, Nat.mod_eq_of_lt (hb _ (List.getElem_mem hm))]
  · simp only [h, if_false]

theorem absorbFrom_eq_foldl (input : List Nat) (hb : ∀ b ∈ input, b < 256) :
    ∀ (n o : Nat) (state : List Nat), o + 136 * n ≤ input.length →
      absorbFrom input n o state =
        ((List.range n).map fun k => (input.drop (o + 136 * k)).take 136).foldl
          (fun st block => keccakf (specXorBlock block st)) state := by
  intro n
  induction n with
  | zero => intro o state _; rfl
  | succ n ih =>
    intro o state h
    rw [absorbFrom, ih (o + 136) _ (by omega), xorInputAt_eq input o state (by omega) hb,
      List.range_succ_eq_map, List.map_cons, List.foldl_cons, List.map_map]
    congr 1
    apply List.map_congr_left
    intro k _
    simp only [Function.comp, Nat.mul_zero, Nat.add_zero]
    rw [show o + 136 + 136 * k = o + 136 * (k + 1) by omega]

/-! ## The whole call -/

/-- The `while` loop started from the initial locals. -/
theorem absorbLoop_init (input : List Nat) (len : Nat) :
    (absorbLoop input len
        { state := List.replicate 25 0, idx := 0, calls := 0, reads := [] }).1 = len % 136 ∧
      (absorbLoop input len
        { state := List.replicate 25 0, idx := 0, calls := 0, reads := [] }).2.state =
          absorbFrom input (len / 136) 0 (List.replicate 25 0) ∧
      (absorbLoop input len
        { state := List.replicate 25 0, idx := 0, calls := 0, reads := [] }).2.idx =
          136 * (len / 136) ∧
      (absorbLoop input len
        { state := List.replicate 25 0, idx := 0, calls := 0, reads := [] }).2.calls =
          len / 136 ∧
      (absorbLoop input len
        { state := List.replicate 25 0, idx := 0, calls := 0, reads := [] }).2.reads =
          (List.range' 0 (136 * (len / 136))).reverse := by
  have h := absorbLoop_spec input len
    { state := List.replicate 25 0, idx := 0, calls := 0, reads := [] }
  simp only [Nat.zero_add, List.append_nil] at h
  exact h

/-- The locals of `sha3_256_sw` on return, in closed form. -/
theorem run_closed_form (input : List Nat) (len : Nat) (output : List Nat) :
    (sha3_256_sw input len output).len = len % 136 ∧
      (sha3_256_sw input len output).temp =
        padTemp (len % 136) (fillTemp input (len % 136)
          (absorbLoop input len
            { state := List.replicate 25 0, idx := 0, calls := 0, reads := [] }).2).1 ∧
      (sha3_256_sw input len output).state =
        keccakf (absorbTemp (sha3_256_sw input len output).temp
          (absorbFrom input (len / 136) 0 (List.replicate 25 0))) ∧
      (sha3_256_sw input len output).idx = len ∧
      (sha3_256_sw input len output).calls = len / 136 + 1 ∧
      (sha3_256_sw input len output).reads = (List.range len).reverse := by
  obtain ⟨a1, a2, a3, a4, a5⟩ := absorbLoop_init input len
  obtain ⟨_, f2, f3, f4, f5⟩ := fillTemp_spec input (len % 136)
    (absorbLoop input len
      { state := List.replicate 25 0, idx := 0, calls := 0, reads := [] }).2
  have hdm := Nat.div_add_mod len 136
  simp only [sha3_256_sw, a1]
  refine ⟨trivial, trivial, ?_, ?_, ?_, ?_⟩
  · rw [f2, a2]
  · rw [f3, a3]
    exact hdm
  · rw [f4, a4]
  · rw [f5, a5, a3, ← List.reverse_append, List.range_eq_range']
    have e := List.range'_append_1 0 (136 * (len / 136)) (len % 136)
    rw [Nat.zero_add] at e
    rw [e, Nat.add_comm, hdm]

/-- The blocks and the tail of the first `len` bytes of a buffer. -/
theorem specBlocks_take (input : List Nat) (len : Nat) (hlen : len ≤ input.length) :
    specBlocks (input.take len) =
      (List.range (len / 136)).map fun k => (input.drop (0 + 136 * k)).take 136 := by
  have hl : (input.take len).length = len := by
    rw [List.length_take]
    omega
  rw [specBlocks, hl]
  apply List.map_congr_left
  intro k hk
  have hk' : k < len / 136 := List.mem_range.1 hk
  have : 136 * k + 136 ≤ len := by
    have := Nat.div_mul_le_self len 136
    have : (k + 1) * 136 ≤ len / 136 * 136 := Nat.mul_le_mul_right _ hk'
    omega
  rw [List.drop_take, List.take_take, Nat.zero_add,
    show min 136 (len - 136 * k) = 136 by omega]

/-- The state with which `sha3_256_sw` returns is the state of the
single-shot sponge over the first `len` bytes of the buffer. -/
theorem run_state_eq_spec (input : List Nat) (len : Nat) (output : List Nat)
    (hlen : len ≤ input.length) (hb : ∀ b ∈ input, b < 256) :
    (sha3_256_sw input len output).temp =
        specPad ((input.take len).drop (136 * (len / 136))) ∧
      (sha3_256_sw input len output).state = specSponge (input.take len) := by
  obtain ⟨_, c2, c3, _⟩ := run_closed_form input len output
  obtain ⟨_, _, a3, _⟩ := absorbLoop_init input len
  have hr : len % 136 < 136 := Nat.mod_lt _ (by decide)
  have hdm := Nat.div_add_mod len 136
  have hl : (input.take len).length = len := by
    rw [List.length_take]
    omega
  have htemp : (sha3_256_sw input len output).temp =
      specPad ((input.take len).drop (136 * (len / 136))) := by
    rw [c2, padTemp_eq_specPad input _ _ hr (by rw [a3]; omega) hb, a3,
      List.drop_take, show len - 136 * (len / 136) = len % 136 by omega]
  refine ⟨htemp, ?_⟩
  rw [c3, absorbTemp_eq _ _ (by rw [c2]; exact padTemp_length input _ _ hr)
      (by rw [c2]; exact padTemp_lt input _ _ hr),
    absorbFrom_eq_foldl input hb _ _ _ (by omega), htemp, specSponge, hl,
    specBlocks_take input len hlen]

/-! ## Claims about the sponge -/

theorem sha3_256_sw_refines_sponge_aux (input : List Nat) (len : Nat) (output : List Nat)
    (hlen : len ≤ input.length) (hb : ∀ b ∈ input, b < 256) (hout : output.length = 32) :
    (sha3_256_sw input len output).output = specSha3 (input.take len) := by
  rw [run_digest _ _ _ hout, (run_state_eq_spec input len [] hlen hb).2, specSha3]

/-- C3: for every buffer of bytes holding at least `len` bytes (in particular
a byte sequence `x` with `len = x.length`) and every 32-byte output buffer,
`sha3_256_sw` leaves in `output` the digest of the single-shot sponge over
the first `len` bytes: from the all-zero state, each full 136-byte block is
XORed as 17 little-endian words into lanes 0..16 and followed by `keccakf`,
then the padded final block likewise, and lanes 0..3 are serialised
little-endian. -/
theorem sha3_256_sw_refines_sponge (input : List Nat) (len : Nat) (output : List Nat)
    (hlen : len ≤ input.length) (hb : ∀ b ∈ input, b < 256) (hout : output.length = 32) :
    (sha3_256_sw input len output).output = specSha3 (input.take len) :=
  sha3_256_sw_refines_sponge_aux input len output hlen hb hout

/-- Witness of C3: the 3-byte message `abc`. -/
theorem sha3_256_sw_refines_sponge_witness :
    (sha3_256_sw [0x61, 0x62, 0x63] 3 (List.replicate 32 0)).output =
      specSha3 (List.take 3 [0x61, 0x62, 0x63]) :=
  sha3_256_sw_refines_sponge [0x61, 0x62, 0x63] 3 (List.replicate 32 0) (by decide)
    (by decide) (by decide)

/-- C4: for every buffer of bytes holding at least `len` bytes, with
`r = len % 136`, the block `temp` that `sha3_256_sw` XORs into the state has
exactly 136 bytes; bytes `0..r-1` are the last `r` of the `len` input bytes;
for `r < 135` byte `r` is `0x06`, byte 135 is `0x80` and the bytes between are
zero (for `r = 0` the block is `0x06`, 134 zero bytes, `0x80`); for `r = 135`
byte 135 is `0x86`; and this block is the one absorbed before the last
`keccakf`. -/
theorem final_block_padding (input : List Nat) (len : Nat) (output : List Nat)
    (hlen : len ≤ input.length) (hb : ∀ b ∈ input, b < 256) :
    (sha3_256_sw input len output).temp.length = 136 ∧
      (∀ i, i < len % 136 →
        (sha3_256_sw input len output).temp.getD i 0 =
          input.getD (len - len % 136 + i) 0) ∧
      (len % 136 < 135 →
        (sha3_256_sw input len output).temp.getD (len % 136) 0 = 0x06 ∧
        (sha3_256_sw input len output).temp.getD 135 0 = 0x80 ∧
        ∀ i, len % 136 < i → i < 135 → (sha3_256_sw input len output).temp.getD i 0 = 0) ∧
      (len % 136 = 0 →
        (sha3_256_sw input len output).temp = 0x06 :: (List.replicate 134 0 ++ [0x80])) ∧
      (len % 136 = 135 → (sha3_256_sw input len output).temp.getD 135 0 = 0x86) ∧
      (sha3_256_sw input len output).temp =
        specPad ((input.take len).drop (len - len % 136)) ∧
      (sha3_256_sw input len output).state =
        keccakf (absorbTemp (sha3_256_sw input len output).temp
          (absorbLoop input len
            { state := List.replicate 25 0, idx := 0, calls := 0, reads := [] }).2.state) := by
  obtain ⟨_, c2, c3, _⟩ := run_closed_form input len output
  obtain ⟨_, a2, a3, _⟩ := absorbLoop_init input len
  rw [← a2] at c3
  have hr : len % 136 < 136 := Nat.mod_lt _ (by decide)
  have hdm := Nat.div_add_mod len 136
  have hoff : len - len % 136 = 136 * (len / 136) := by omega
  have hget : ∀ m, (sha3_256_sw input len output).temp.getD m 0 =
      (if m < 136 then
        some (if m = 135 then (if len % 136 = 135 then 0x86 else 0x80)
          else if m = len % 136 then 0x06
          else if m < len % 136 then input.getD (136 * (len / 136) + m) 0 % 256 else 0)
      else none).getD 0 := by
    intro m
    rw [List.getD_eq_getElem?_getD, c2, padTemp_getElem? input _ _ hr m, a3]
  have hpad := (run_state_eq_spec input len output hlen hb).1
  refine ⟨by rw [c2]; exact padTemp_length input _ _ hr, ?_, ?_, ?_, ?_, ?_, c3⟩
  · intro i hi
    have hm : 136 * (len / 136) + i < input.length := by omega
    rw [hget i, hoff]
    simp only [show i < 136 by omega, show ¬ i = 135 by omega, show ¬ i = len % 136 by omega,
      hi, if_true, if_false, Option.getD_some]
    rw [Nat.mod_eq_of_lt]
    rw [List.getD_eq_getElem?_getD, List.getElem?_eq_getElem hm, Option.getD_some]
    exact hb _ (List.getElem_mem hm)
  · intro h135
    refine ⟨?_, ?_, ?_⟩
    · rw [hget]
      simp [show len % 136 < 136 by omega, show ¬ len % 136 = 135 by omega]
    · rw [hget]
      simp [show ¬ len % 136 = 135 by omega]
    · intro i h1 h2
      rw [hget]
      simp [show i < 136 by omega, show ¬ i = 135 by omega, show ¬ i = len % 136 by omega,
        show ¬ i < len % 136 by omega]
  · intro h0
    rw [hpad, show 136 * (len / 136) = len by omega, List.drop_eq_nil_of_le (by simp)]
    rfl
  · intro h135
    rw [hget]
    simp [h135]
  · rw [hpad, hoff]

/-- Witness of C4: a 3-byte message in a 3-byte buffer. -/
theorem final_block_padding_witness :
    (sha3_256_sw [0x61, 0x62, 0x63] 3 []).temp.length = 136 ∧
      (sha3_256_sw [0x61, 0x62, 0x63] 3 []).temp =
        specPad ((List.take 3 [0x61, 0x62, 0x63]).drop (3 - 3 % 136)) :=
  ⟨(final_block_padding [0x61, 0x62, 0x63] 3 [] (by decide) (by decide)).1,
   (final_block_padding [0x61, 0x62, 0x63] 3 [] (by decide) (by decide)).2.2.2.2.2.1⟩

theorem fillTemp_zero (input : List Nat) (s : Sponge) :
    fillTemp input 0 s = (List.replicate 136 0, s) := rfl

set_option maxRecDepth 10000 in
theorem padTemp_zero :
    padTemp 0 (List.replicate 136 0) = 0x06 :: (List.replicate 134 0 ++ [0x80]) := by
  decide!

/-- C5: for every `len`, the `while` loop of `sha3_256_sw` ends after exactly
`len / 136` iterations (one `keccakf` call each) with `len % 136 < 136` bytes
left, and the padded block is absorbed afterwards, so that `keccakf` is called
`len / 136 + 1` times in all; for `len = 136 * k` the final block is all
padding; for `len = 850` the count is `6 + 1`. -/
theorem keccakf_call_count (input : List Nat) (len : Nat) (output : List Nat) :
    (absorbLoop input len
        { state := List.replicate 25 0, idx := 0, calls := 0, reads := [] }).2.calls =
          len / 136 ∧
      (absorbLoop input len
        { state := List.replicate 25 0, idx := 0, calls := 0, reads := [] }).1 = len % 136 ∧
      (sha3_256_sw input len output).len = len % 136 ∧
      (sha3_256_sw input len output).len < 136 ∧
      (sha3_256_sw input len output).calls = len / 136 + 1 ∧
      (∀ k, len = 136 * k →
        (absorbLoop input len
          { state := List.replicate 25 0, idx := 0, calls := 0, reads := [] }).2.calls = k ∧
        (sha3_256_sw input len output).calls = k + 1 ∧
        (sha3_256_sw input len output).temp = 0x06 :: (List.replicate 134 0 ++ [0x80])) ∧
      (sha3_256_sw input 850 output).calls = 6 + 1 := by
  obtain ⟨c1, c2, _, _, c5, _⟩ := run_closed_form input len output
  obtain ⟨a1, _, _, a4, _⟩ := absorbLoop_init input len
  have hr : len % 136 < 136 := Nat.mod_lt _ (by decide)
  refine ⟨a4, a1, c1, by rw [c1]; exact hr, c5, ?_, ?_⟩
  · intro k hk
    have hd : len / 136 = k := by omega
    have hm : len % 136 = 0 := by omega
    refine ⟨by rw [a4, hd], by rw [c5, hd], ?_⟩
    rw [c2, hm, fillTemp_zero]
    exact padTemp_zero
  · exact (run_closed_form input 850 output).2.2.2.2.1

set_option maxRecDepth 100000 in
/-- C1: for every input buffer and every 32-byte output buffer, `sha3_256_sw`
with `len = 0` (the empty input) leaves in `output` the digest
`a7ffc6f8bf1ed76651c14756a061d662f580ff4de43b49fa82d80a4b80f8434a`. -/
theorem sha3_256_sw_empty (input output : List Nat) (h : output.length = 32) :
    (sha3_256_sw input 0 output).output =
      [0xa7, 0xff, 0xc6, 0xf8, 0xbf, 0x1e, 0xd7, 0x66, 0x51, 0xc1, 0x47, 0x56,
       0xa0, 0x61, 0xd6, 0x62, 0xf5, 0x80, 0xff, 0x4d, 0xe4, 0x3b, 0x49, 0xfa,
       0x82, 0xd8, 0x0a, 0x4b, 0x80, 0xf8, 0x43, 0x4a] := by
  rw [run_digest _ _ _ h, run_state_len_zero]
  decide!

/-- Witness of C1: the empty buffer and a zero-filled output buffer. -/
theorem sha3_256_sw_empty_witness :
    (List.replicate 32 0).length = 32 ∧
    (sha3_256_sw [] 0 (List.replicate 32 0)).output =
      [0xa7, 0xff, 0xc6, 0xf8, 0xbf, 0x1e, 0xd7, 0x66, 0x51, 0xc1, 0x47, 0x56,
       0xa0, 0x61, 0xd6, 0x62, 0xf5, 0x80, 0xff, 0x4d, 0xe4, 0x3b, 0x49, 0xfa,
       0x82, 0xd8, 0x0a, 0x4b, 0x80, 0xf8, 0x43, 0x4a] :=
  ⟨by decide, sha3_256_sw_empty [] (List.replicate 32 0) (by decide)⟩

set_option maxRecDepth 100000 in
/-- C2: for every 32-byte output buffer, `sha3_256_sw` on the 3-byte input
`0x61 0x62 0x63` with `len = 3` leaves in `output` the digest
`3a985da74fe225b2045c172d6bd390bd855f086e3e9d525b46bfe24511431532`. -/
theorem sha3_256_sw_abc (output : List Nat) (h : output.length = 32) :
    (sha3_256_sw [0x61, 0x62, 0x63] 3 output).output =
      [0x3a, 0x98, 0x5d, 0xa7, 0x4f, 0xe2, 0x25, 0xb2, 0x04, 0x5c, 0x17, 0x2d,
       0x6b, 0xd3, 0x90, 0xbd, 0x85, 0x5f, 0x08, 0x6e, 0x3e, 0x9d, 0x52, 0x5b,
       0x46, 0xbf, 0xe2, 0x45, 0x11, 0x43, 0x15, 0x32] := by
  rw [run_digest _ _ _ h]
  decide!

/-- Witness of C2: a zero-filled output buffer. -/
theorem sha3_256_sw_abc_witness :
    (List.replicate 32 0).length = 32 ∧
    (sha3_256_sw [0x61, 0x62, 0x63] 3 (List.replicate 32 0)).output =
      [0x3a, 0x98, 0x5d, 0xa7, 0x4f, 0xe2, 0x25, 0xb2, 0x04, 0x5c, 0x17, 0x2d,
       0x6b, 0xd3, 0x90, 0xbd, 0x85, 0x5f, 0x08, 0x6e, 0x3e, 0x9d, 0x52, 0x5b,
       0x46, 0xbf, 0xe2, 0x45, 0x11, 0x43, 0x15, 0x32] :=
  ⟨by decide, sha3_256_sw_abc (List.replicate 32 0) (by decide)⟩

set_option maxRecDepth 100000 in
/-- The state after the `while` loop has absorbed one block of 136 zero bytes. -/
theorem absorbFrom_zero_block :
    absorbFrom (List.replicate 136 0) 1 0 (List.replicate 25 0) =
      [0xf1258f7940e1dde7, 0x84d5ccf933c0478a, 0xd598261ea65aa9ee,
       0xbd1547306f80494d, 0x8b284e056253d057, 0xff97a42d7f8e6fd4,
       0x90fee5a0a44647c4, 0x8c5bda0cd6192e76, 0xad30a6f71b19059c,
       0x30935ab7d08ffc64, 0xeb5aa93f2317d635, 0xa9a6e6260d712103,
       0x81a57c16dbcf555f, 0x43b831cd0347c826, 0x1f22f1a11a5569f,
       0x5e5635a21d9ae61, 0x64befef28cc970f2, 0x613670957bc46611,
       0xb87c5a554fd00ecb, 0x8c3ee88a1ccf32c8, 0x940c7922ae3a2614,
       0x1841f924a2c509e4, 0x16f53526e70465c2, 0x75f644e97f30a13b,
       0xeaf1ff7b5ceca249] := by
  decide!

set_option maxRecDepth 100000 in
theorem digest_zero_block_ne :
    specDigest (keccakf (absorbTemp (padTemp 0 (List.replicate 136 0))
      [0xf1258f7940e1dde7, 0x84d5ccf933c0478a, 0xd598261ea65aa9ee,
       0xbd1547306f80494d, 0x8b284e056253d057, 0xff97a42d7f8e6fd4,
       0x90fee5a0a44647c4, 0x8c5bda0cd6192e76, 0xad30a6f71b19059c,
       0x30935ab7d08ffc64, 0xeb5aa93f2317d635, 0xa9a6e6260d712103,
       0x81a57c16dbcf555f, 0x43b831cd0347c826, 0x1f22f1a11a5569f,
       0x5e5635a21d9ae61, 0x64befef28cc970f2, 0x613670957bc46611,
       0xb87c5a554fd00ecb, 0x8c3ee88a1ccf32c8, 0x940c7922ae3a2614,
       0x1841f924a2c509e4, 0x16f53526e70465c2, 0x75f644e97f30a13b,
       0xeaf1ff7b5ceca249])) ≠
      specDigest (sha3_256_sw (List.replicate 136 0) 135 []).state := by
  decide!

/-- C6: on the buffer of 136 zero bytes, the digest that `sha3_256_sw`
produces for all 136 bytes differs from the digest it produces for the first
135 bytes of the same buffer, whatever the 32-byte output buffers held. -/
theorem digest_rate_boundary_differs (out1 out2 : List Nat)
    (h1 : out1.length = 32) (h2 : out2.length = 32) :
    (sha3_256_sw (List.replicate 136 0) 136 out1).output ≠
      (sha3_256_sw (List.replicate 136 0) 135 out2).output := by
  obtain ⟨_, c2, c3, _⟩ := run_closed_form (List.replicate 136 0) 136 []
  rw [run_digest _ _ _ h1, run_digest _ _ _ h2, c3, c2, show 136 % 136 = 0 by decide,
    show 136 / 136 = 1 by decide, fillTemp_zero, absorbFrom_zero_block]
  exact digest_zero_block_ne

/-- Witness of C6: zero-filled output buffers. -/
theorem digest_rate_boundary_differs_witness :
    (sha3_256_sw (List.replicate 136 0) 136 (List.replicate 32 0)).output ≠
      (sha3_256_sw (List.replicate 136 0) 135 (List.replicate 32 0)).output :=
  digest_rate_boundary_differs (List.replicate 32 0) (List.replicate 32 0)
    (by decide) (by decide)

/-- C7: the 32 bytes that `sha3_256_sw` leaves in the output buffer do not
depend on what the buffer held before, and, for buffers of bytes holding at
least `len` bytes, they depend on the input only through its first `len`
bytes. -/
theorem digest_independent_of_residue (input : List Nat) (len : Nat) (out1 out2 : List Nat)
    (h1 : out1.length = 32) (h2 : out2.length = 32) :
    (sha3_256_sw input len out1).output = (sha3_256_sw input len out2).output ∧
      (sha3_256_sw input len out1).output.length = 32 ∧
      ∀ input' : List Nat, len ≤ input.length → len ≤ input'.length →
        (∀ b ∈ input, b < 256) → (∀ b ∈ input', b < 256) →
        input'.take len = input.take len →
        (sha3_256_sw input' len out2).output = (sha3_256_sw input len out1).output := by
  refine ⟨by rw [run_digest _ _ _ h1, run_digest _ _ _ h2], ?_, ?_⟩
  · rw [run_digest _ _ _ h1, specDigest_length]
  · intro input' hl hl' hb hb' he
    rw [sha3_256_sw_refines_sponge_aux input' len out2 hl' hb' h2,
      sha3_256_sw_refines_sponge_aux input len out1 hl hb h1, he]

/-- Witness of C7: the message `abc` with a zero-filled and a one-filled
output buffer. -/
theorem digest_independent_of_residue_witness :
    (sha3_256_sw [0x61, 0x62, 0x63] 3 (List.replicate 32 0)).output =
      (sha3_256_sw [0x61, 0x62, 0x63] 3 (List.replicate 32 1)).output :=
  (digest_independent_of_residue [0x61, 0x62, 0x63] 3 (List.replicate 32 0)
    (List.replicate 32 1) (by decide) (by decide)).1

/-- C8: for every input, every `len` and every output buffer of at least 32
bytes, `sha3_256_sw` writes exactly the entries 0..31 of the buffer: they
become the 32 digest bytes, and the buffer keeps its length and every entry
from index 32 on. -/
theorem output_is_32_bytes (input : List Nat) (len : Nat) (output : List Nat)
    (h : 32 ≤ output.length) :
    (sha3_256_sw input len output).output.length = output.length ∧
      (sha3_256_sw input len output).output.take 32 =
        specDigest (sha3_256_sw input len output).state ∧
      ((sha3_256_sw input len output).output.take 32).length = 32 ∧
      (sha3_256_sw input len output).output.drop 32 = output.drop 32 := by
  have e := squeeze_eq (sha3_256_sw input len output).state output h
  have hl := specDigest_length (sha3_256_sw input len output).state
  rw [run_output, e]
  refine ⟨?_, ?_, ?_, ?_⟩
  · rw [List.length_append, hl, List.length_drop]
    omega
  · rw [List.take_append_of_le_length (by omega), List.take_of_length_le (by omega)]
  · rw [List.take_append_of_le_length (by omega), List.take_of_length_le (by omega), hl]
  · rw [List.drop_append_of_le_length (by omega), List.drop_of_length_le (by omega),
      List.nil_append]

/-- Witness of C8: the empty input and a 40-byte output buffer. -/
theorem output_is_32_bytes_witness :
    (sha3_256_sw [] 0 (List.replicate 40 7)).output.length = (List.replicate 40 7).length ∧
      (sha3_256_sw [] 0 (List.replicate 40 7)).output.drop 32 =
        (List.replicate 40 7).drop 32 :=
  ⟨(output_is_32_bytes [] 0 (List.replicate 40 7) (by decide)).1,
   (output_is_32_bytes [] 0 (List.replicate 40 7) (by decide)).2.2.2⟩

theorem leWord64_digest_bytes (x : Nat) (h : x < 2 ^ 64) :
    leWord64 ((List.range 8).map fun j => x / 256 ^ j % 256) = x := by
  have e : List.range 8 = [0, 1, 2, 3, 4, 5, 6, 7] := by decide
  rw [e]
  simp only [leWord64, List.map_cons, List.map_nil, List.foldr_cons, List.foldr_nil]
  norm_num at h ⊢
  omega

/-- C9: for every state of 64-bit lanes and every output buffer of at least
32 bytes, the squeeze loop sets output byte `8 * i + j` (`i < 4`, `j < 8`) to
bits `8 * j .. 8 * j + 7` of lane `i`, and the little-endian word of each
group of 8 output bytes is lane 0, 1, 2, 3 again. -/
theorem squeeze_little_endian (state output : List Nat) (hout : 32 ≤ output.length)
    (hst : ∀ i, i < 4 → state.getD i 0 < 2 ^ 64) :
    (∀ i j, i < 4 → j < 8 →
        (squeeze state output).getD (8 * i + j) 0 = state.getD i 0 / 2 ^ (8 * j) % 2 ^ 8 ∧
        ∀ b, b < 8 → ((squeeze state output).getD (8 * i + j) 0).testBit b =
          (state.getD i 0).testBit (8 * j + b)) ∧
      ∀ i, i < 4 → leWord64 (((squeeze state output).drop (8 * i)).take 8) = state.getD i 0 := by
  have hbyte : ∀ i j, i < 4 → j < 8 →
      (squeeze state output).getD (8 * i + j) 0 = state.getD i 0 / 256 ^ j % 256 := by
    intro i j hi hj
    have hm : 8 * i + j < 32 := by omega
    rw [squeeze_eq state output hout, List.getD_eq_getElem?_getD,
      List.getElem?_append_left (by rw [specDigest_length]; exact hm),
      specDigest_getElem?, if_pos hm, Option.getD_some,
      show (8 * i + j) / 8 = i by omega, show (8 * i + j) % 8 = j by omega]
  refine ⟨?_, ?_⟩
  · intro i j hi hj
    rw [hbyte i j hi hj]
    refine ⟨by rw [Nat.pow_mul]; norm_num, ?_⟩
    intro b hb
    rw [show (256 : Nat) = 2 ^ 8 by norm_num, ← Nat.pow_mul, Nat.testBit_mod_two_pow,
      ← Nat.shiftRight_eq_div_pow, Nat.testBit_shiftRight]
    simp [hb]
  · intro i hi
    have hl : (squeeze state output).length = output.length := by
      rw [squeeze_eq state output hout, List.length_append, specDigest_length,
        List.length_drop]
      omega
    have e : ((List.range 8).map fun j => (squeeze state output).getD (8 * i + j) 0) =
        (List.range 8).map fun j => state.getD i 0 / 256 ^ j % 256 :=
      List.map_congr_left fun j hj => hbyte i j hi (List.mem_range.1 hj)
    rw [slice_eq _ (8 * i) (by omega), e, leWord64_digest_bytes _ (hst i hi)]

/-- Witness of C9: a state whose first four lanes are distinct 64-bit words;
the third group of 8 output bytes gives back lane 2. -/
theorem squeeze_little_endian_witness :
    leWord64 (((squeeze [0x0123456789abcdef, 1, 0xfedcba9876543210, 0x8000000000000000]
      (List.replicate 32 0)).drop (8 * 2)).take 8) =
      [0x0123456789abcdef, 1, 0xfedcba9876543210, 0x8000000000000000].getD 2 0 :=
  (squeeze_little_endian [0x0123456789abcdef, 1, 0xfedcba9876543210, 0x8000000000000000]
    (List.replicate 32 0) (by decide) (by decide)).2 2 (by decide)

/-! ## Rotation amounts -/

theorem rotation_amounts_in_range :
    ∀ y ∈ 1 :: keccakf_rotc, 1 ≤ y ∧ y ≤ 63 ∧ 1 ≤ 64 - y ∧ 64 - y ≤ 63 := by
  decide

theorem keccakRound_congr (rot : Nat → Nat → Nat)
    (hrot : ∀ x y, y ∈ 1 :: keccakf_rotc → rot x y = ROTL64 x y) (round : Nat)
    (st : List Nat) : keccakRound rot round st = keccakRound ROTL64 round st := by
  have htheta : ∀ t, theta rot t = theta ROTL64 t := by
    intro t
    simp only [theta, thetaApply, hrot _ 1 (List.mem_cons_self 1 keccakf_rotc)]
  have hrho : ∀ t, rhoPi rot t = rhoPi ROTL64 t := by
    intro t
    unfold rhoPi
    rw [forLoop_congr (rhoPiStep rot) (rhoPiStep ROTL64) 24 0 _ ?_]
    intro k p hk
    have hlen : 0 + k < keccakf_rotc.length := by
      rw [Nat.zero_add]
      exact hk
    simp only [rhoPiStep]
    rw [hrot _ _ (List.mem_cons_of_mem 1 (by
      rw [List.getD_eq_getElem _ 0 hlen]
      exact List.getElem_mem hlen))]
  simp only [keccakRound, htheta, hrho]

/-- C10: `keccakf` rotates only by the amount 1 and by entries of
`keccakf_rotc`: each such amount `y` has `1 ≤ y ≤ 63` and `1 ≤ 64 - y ≤ 63`,
and replacing `ROTL64` by any function that agrees with it on these amounts
(whatever it does for a shift by 0 or by 64) does not change the result of
`keccakf`. -/
theorem keccakf_rotations_guarded (rot : Nat → Nat → Nat)
    (hrot : ∀ x y, y ∈ 1 :: keccakf_rotc → rot x y = ROTL64 x y) (st : List Nat) :
    (∀ y ∈ 1 :: keccakf_rotc, 1 ≤ y ∧ y ≤ 63 ∧ 1 ≤ 64 - y ∧ 64 - y ≤ 63) ∧
      keccakfWith rot st = keccakf st := by
  refine ⟨rotation_amounts_in_range, ?_⟩
  unfold keccakf keccakfWith
  exact forLoop_congr _ _ 24 0 st (fun k t _ => keccakRound_congr rot hrot (0 + k) t)

/-- Witness of C10: a rotation that returns 0 for every amount outside 1..63. -/
theorem keccakf_rotations_guarded_witness :
    keccakfWith (fun x y => if y = 0 ∨ 64 ≤ y then 0 else ROTL64 x y) (List.replicate 25 0) =
      keccakf (List.replicate 25 0) :=
  (keccakf_rotations_guarded (fun x y => if y = 0 ∨ 64 ≤ y then 0 else ROTL64 x y)
    (fun x y hy => by
      have h := rotation_amounts_in_range y hy
      have h0 : ¬ (y = 0 ∨ 64 ≤ y) := by omega
      simp only [h0, if_false])
    (List.replicate 25 0)).2

/-! ## The steps of a round -/

theorem list25 (st : List Nat) (h : st.length = 25) :
    ∃ a0 a1 a2 a3 a4 a5 a6 a7 a8 a9 a10 a11 a12 a13 a14 a15 a16 a17 a18 a19 a20 a21 a22 a23 a24,
      st = [a0, a1, a2, a3, a4, a5, a6, a7, a8, a9, a10, a11, a12, a13, a14, a15, a16, a17,
        a18, a19, a20, a21, a22, a23, a24] := by
  iterate 25 (rcases st with _ | ⟨_, st⟩; · simp at h)
  rcases st with _ | ⟨_, st⟩
  · exact ⟨_, _, _, _, _, _, _, _, _, _, _, _, _, _, _, _, _, _, _, _, _, _, _, _, _, rfl⟩
  · simp at h

theorem theta_length (st : List Nat) (h : st.length = 25) :
    (theta ROTL64 st).length = 25 := by
  obtain ⟨a0, a1, a2, a3, a4, a5, a6, a7, a8, a9, a10, a11, a12, a13, a14, a15, a16, a17,
    a18, a19, a20, a21, a22, a23, a24, rfl⟩ := list25 st h
  simp only [theta, thetaApply, thetaParity, forLoop, forStep, List.getD_cons_zero,
    List.getD_cons_succ, List.set_cons_zero, List.set_cons_succ, Nat.reduceAdd,
    Nat.reduceMod, List.length_cons, List.length_nil]

theorem rhoPi_length (st : List Nat) (h : st.length = 25) :
    (rhoPi ROTL64 st).length = 25 :=
  forLoop_inv (rhoPiStep ROTL64) 24 0 (st.getD 1 0, st) (fun _ p => p.2.length = 25) h
    (by
      intro k p _ hp
      simp only [rhoPiStep, List.length_set]
      exact hp)

theorem chi_length (st : List Nat) (h : st.length = 25) : (chi st).length = 25 := by
  obtain ⟨a0, a1, a2, a3, a4, a5, a6, a7, a8, a9, a10, a11, a12, a13, a14, a15, a16, a17,
    a18, a19, a20, a21, a22, a23, a24, rfl⟩ := list25 st h
  simp only [chi, chiRow, forLoop, forStep, List.getD_cons_zero, List.getD_cons_succ,
    List.set_cons_zero, List.set_cons_succ, Nat.reduceAdd, Nat.reduceMod, List.length_cons,
    List.length_nil]

/-- C13: for every 25-lane state `A`, the theta step yields a 25-lane state
`A'` with `A'[x + 5y] = A[x + 5y] ^ C[(x+4) % 5] ^ ROTL64(C[(x+1) % 5], 1)` for
all `x, y < 5`, where `C` is the column parity of `A` itself, the state before
the step. -/
theorem theta_spec (st : List Nat) (h : st.length = 25) :
    (theta ROTL64 st).length = 25 ∧
      ∀ x y, x < 5 → y < 5 →
        (theta ROTL64 st).getD (x + 5 * y) 0 =
          st.getD (x + 5 * y) 0 ^^^ columnParity st ((x + 4) % 5)
            ^^^ ROTL64 (columnParity st ((x + 1) % 5)) 1 := by
  obtain ⟨a0, a1, a2, a3, a4, a5, a6, a7, a8, a9, a10, a11, a12, a13, a14, a15, a16, a17,
    a18, a19, a20, a21, a22, a23, a24, rfl⟩ := list25 st h
  refine ⟨theta_length _ h, ?_⟩
  intro x y hx hy
  simp only [theta, thetaApply, thetaParity, forLoop, forStep, List.getD_cons_zero,
    List.getD_cons_succ, List.set_cons_zero, List.set_cons_succ, Nat.reduceAdd, Nat.reduceMod]
  interval_cases x <;> interval_cases y <;>
    simp only [columnParity, List.getD_cons_zero, List.getD_cons_succ, Nat.reduceAdd,
      Nat.reduceMod, Nat.reduceMul, Nat.xor_assoc]

/-- Witness of C13: the state with lanes `0, 1, .., 24`, at `x = 2`, `y = 3`. -/
theorem theta_spec_witness :
    (theta ROTL64 (List.range 25)).getD (2 + 5 * 3) 0 =
      (List.range 25).getD (2 + 5 * 3) 0 ^^^ columnParity (List.range 25) ((2 + 4) % 5)
        ^^^ ROTL64 (columnParity (List.range 25) ((2 + 1) % 5)) 1 :=
  (theta_spec (List.range 25) (by decide)).2 2 3 (by decide) (by decide)

/-- C14: for every 25-lane state `A`, the rho+pi pass yields a 25-lane state
`A'` with `A'[0] = A[0]` and `A'[keccakf_piln[i]] = ROTL64(A[s i], keccakf_rotc[i])`
for `i = 0..23`, where `s 0 = 1`, `s i = keccakf_piln[i - 1]` and every source
lane is taken from `A`, the state before the pass; the 24 destinations are
pairwise distinct and are exactly the lanes 1..24, so each is written once. -/
theorem rhoPi_spec (st : List Nat) (h : st.length = 25) :
    (rhoPi ROTL64 st).length = 25 ∧
      (rhoPi ROTL64 st).getD 0 0 = st.getD 0 0 ∧
      (∀ i, i < 24 →
        (rhoPi ROTL64 st).getD (keccakf_piln.getD i 0) 0 =
          ROTL64 (st.getD (piChain i) 0) (keccakf_rotc.getD i 0)) ∧
      piChain 0 = 1 ∧ (∀ i, i < 23 → piChain (i + 1) = keccakf_piln.getD i 0) ∧
      keccakf_piln.length = 24 ∧ keccakf_piln.Nodup ∧
      (∀ m, m ∈ keccakf_piln ↔ 1 ≤ m ∧ m ≤ 24) := by
  obtain ⟨a0, a1, a2, a3, a4, a5, a6, a7, a8, a9, a10, a11, a12, a13, a14, a15, a16, a17,
    a18, a19, a20, a21, a22, a23, a24, rfl⟩ := list25 st h
  have e : rhoPi ROTL64 [a0, a1, a2, a3, a4, a5, a6, a7, a8, a9, a10, a11, a12, a13, a14,
      a15, a16, a17, a18, a19, a20, a21, a22, a23, a24] =
      [a0, ROTL64 a6 44, ROTL64 a12 43, ROTL64 a18 21, ROTL64 a24 14,
       ROTL64 a3 28, ROTL64 a9 20, ROTL64 a10 3, ROTL64 a16 45, ROTL64 a22 61,
       ROTL64 a1 1, ROTL64 a7 6, ROTL64 a13 25, ROTL64 a19 8, ROTL64 a20 18,
       ROTL64 a4 27, ROTL64 a5 36, ROTL64 a11 10, ROTL64 a17 15, ROTL64 a23 56,
       ROTL64 a2 62, ROTL64 a8 55, ROTL64 a14 39, ROTL64 a15 41, ROTL64 a21 2] := by
    simp only [rhoPi, rhoPiStep, forLoop, keccakf_piln, keccakf_rotc, List.getD_cons_zero,
      List.getD_cons_succ, List.set_cons_zero, List.set_cons_succ, Nat.reduceAdd]
  rw [e]
  refine ⟨rfl, rfl, ?_, rfl, ?_, rfl, by decide, ?_⟩
  · intro i hi
    interval_cases i <;>
      simp only [piChain, keccakf_piln, keccakf_rotc, List.getD_cons_zero,
        List.getD_cons_succ]
  · intro i hi
    interval_cases i <;> rfl
  · intro m
    constructor
    · intro hm
      simp only [keccakf_piln, List.mem_cons, List.mem_singleton, List.not_mem_nil, or_false] at hm
      omega
    · intro ⟨h1, h2⟩
      interval_cases m <;> decide

/-- Witness of C14: the state with lanes `0, 1, .., 24`, at `i = 5`. -/
theorem rhoPi_spec_witness :
    (rhoPi ROTL64 (List.range 25)).getD (keccakf_piln.getD 5 0) 0 =
      ROTL64 ((List.range 25).getD (piChain 5) 0) (keccakf_rotc.getD 5 0) :=
  (rhoPi_spec (List.range 25) (by decide)).2.2.1 5 (by decide)

/-- C15: for every 25-lane state `A`, the chi step yields a 25-lane state `A'`
with `A'[x + 5y] = A[x + 5y] ^ (~A[(x+1) % 5 + 5y] & A[(x+2) % 5 + 5y])` for all
`x, y < 5`, every lane on the right being taken from `A`, the state before the
step; `~` is the complement of a 64-bit word. -/
theorem chi_spec (st : List Nat) (h : st.length = 25) :
    (chi st).length = 25 ∧
      (∀ x y, x < 5 → y < 5 →
        (chi st).getD (x + 5 * y) 0 =
          st.getD (x + 5 * y) 0 ^^^
            (not64 (st.getD ((x + 1) % 5 + 5 * y) 0) &&& st.getD ((x + 2) % 5 + 5 * y) 0)) ∧
      ∀ a, a < 2 ^ 64 → not64 a = 2 ^ 64 - 1 - a := by
  obtain ⟨a0, a1, a2, a3, a4, a5, a6, a7, a8, a9, a10, a11, a12, a13, a14, a15, a16, a17,
    a18, a19, a20, a21, a22, a23, a24, rfl⟩ := list25 st h
  refine ⟨chi_length _ h, ?_, ?_⟩
  · intro x y hx hy
    simp only [chi, chiRow, forLoop, forStep, List.getD_cons_zero, List.getD_cons_succ,
      List.set_cons_zero, List.set_cons_succ, Nat.reduceAdd, Nat.reduceMod]
    interval_cases x <;> interval_cases y <;>
      simp only [List.getD_cons_zero, List.getD_cons_succ, Nat.reduceAdd,
        Nat.reduceMod, Nat.reduceMul]
  · intro a ha
    have hlt : a ^^^ (2 ^ 64 - 1) < 2 ^ 64 :=
      Nat.xor_lt_two_pow ha (by norm_num)
    have e : (0xFFFFFFFFFFFFFFFF : Nat) = 2 ^ 64 - 1 := by norm_num
    rw [not64, e, Nat.mod_eq_of_lt hlt]
    apply Nat.eq_of_testBit_eq
    intro i
    rw [show 2 ^ 64 - 1 - a = 2 ^ 64 - (a + 1) by omega, Nat.testBit_two_pow_sub_succ ha,
      Nat.testBit_xor, Nat.testBit_two_pow_sub_one]
    by_cases hi : i < 64
    · simp [hi]
    · simp only [hi, decide_False, Bool.false_and, Bool.xor_false]
      exact Nat.testBit_lt_two_pow (Nat.lt_of_lt_of_le ha
        (Nat.pow_le_pow_right (by decide) (by omega)))

/-- Witness of C15: the state with lanes `0, 1, .., 24`, at `x = 4`, `y = 1`. -/
theorem chi_spec_witness :
    (chi (List.range 25)).getD (4 + 5 * 1) 0 =
      (List.range 25).getD (4 + 5 * 1) 0 ^^^
        (not64 ((List.range 25).getD ((4 + 1) % 5 + 5 * 1) 0) &&&
          (List.range 25).getD ((4 + 2) % 5 + 5 * 1) 0) :=
  (chi_spec (List.range 25) (by decide)).2.1 4 1 (by decide) (by decide)

/-! ## The round loop -/

theorem forLoop_eq_foldl {σ : Type} (body : Nat → σ → σ) :
    ∀ (n start : Nat) (s : σ),
      forLoop body n start s = (List.range' start n).foldl (fun s i => body i s) s := by
  intro n
  induction n with
  | zero => intro start s; rfl
  | succ n ih =>
    intro start s
    rw [forLoop, ih, List.range'_succ, List.foldl_cons]

theorem keccakRound_length (round : Nat) (st : List Nat) (h : st.length = 25) :
    (keccakRound ROTL64 round st).length = 25 := by
  rw [keccakRound, iota, List.length_set]
  exact chi_length _ (rhoPi_length _ (theta_length st h))

theorem keccakf_length (st : List Nat) (h : st.length = 25) : (keccakf st).length = 25 :=
  forLoop_inv (keccakRound ROTL64) 24 0 st (fun _ t => t.length = 25) h
    (fun _ t _ ht => keccakRound_length _ t ht)

/-- C16: on every 25-lane state, `keccakf` applies exactly 24 rounds, for
`round = 0, 1, .., 23` in that order, each being theta, then rho+pi, then chi,
then iota; iota of round `r` XORs `keccakf_rndc[r]` into lane 0 and leaves every
other lane as chi produced it. -/
theorem keccakf_rounds (st : List Nat) (h : st.length = 25) :
    keccakf st =
        (List.range 24).foldl
          (fun s round => iota round (chi (rhoPi ROTL64 (theta ROTL64 s)))) st ∧
      (keccakf st).length = 25 ∧ keccakf_rndc.length = 24 ∧
      ∀ round s, round < 24 → s.length = 25 →
        (iota round s).length = 25 ∧
        (iota round s).getD 0 0 = s.getD 0 0 ^^^ keccakf_rndc.getD round 0 ∧
        ∀ k, 1 ≤ k → (iota round s).getD k 0 = s.getD k 0 := by
  refine ⟨?_, keccakf_length st h, rfl, ?_⟩
  · rw [keccakf, keccakfWith, forLoop_eq_foldl, List.range_eq_range']
    rfl
  · intro round s _ hs
    have h0 : 0 < s.length := by omega
    refine ⟨by rw [iota, List.length_set]; exact hs, ?_, ?_⟩
    · rw [iota, List.getD_eq_getElem?_getD, getElem?_set_map, List.getElem?_eq_getElem h0]
      simp
    · intro k hk
      rw [iota, List.getD_eq_getElem?_getD, getElem?_set_map, List.getD_eq_getElem?_getD]
      have : ¬ (0 = k) := by omega
      simp [this]

/-- Witness of C16: the all-zero state. -/
theorem keccakf_rounds_witness :
    keccakf (List.replicate 25 0) =
      (List.range 24).foldl
        (fun s round => iota round (chi (rhoPi ROTL64 (theta ROTL64 s))))
        (List.replicate 25 0) :=
  (keccakf_rounds (List.replicate 25 0) (by decide)).1

/-! ## The rotation and the tables -/

theorem ROTL64_lt (x n : Nat) (hx : x < 2 ^ 64) : ROTL64 x n < 2 ^ 64 := by
  rw [ROTL64]
  apply Nat.or_lt_two_pow (Nat.mod_lt _ (by norm_num))
  rw [Nat.shiftRight_eq_div_pow]
  exact Nat.lt_of_le_of_lt (Nat.div_le_self _ _) hx

theorem testBit_ROTL64 (x n j : Nat) (hx : x < 2 ^ 64) (h1 : 1 ≤ n) (h2 : n ≤ 63)
    (hj : j < 64) : (ROTL64 x n).testBit j = x.testBit ((j + 64 - n) % 64) := by
  have hbig : ∀ i, 64 ≤ i → x.testBit i = false := fun i hi =>
    Nat.testBit_lt_two_pow (Nat.lt_of_lt_of_le hx (Nat.pow_le_pow_right (by decide) hi))
  rw [ROTL64, Nat.testBit_or, Nat.testBit_mod_two_pow, Nat.testBit_shiftLeft,
    Nat.testBit_shiftRight]
  by_cases hjn : n ≤ j
  · rw [hbig (64 - n + j) (by omega), show (j + 64 - n) % 64 = j - n by omega]
    simp [hj, hjn]
  · rw [show (j + 64 - n) % 64 = 64 - n + j by omega]
    simp [hjn]

/-- C18: for every 64-bit word `x` and every `n` with `1 ≤ n ≤ 63`, `ROTL64(x, n)`
is a 64-bit word whose bit `(k + n) % 64` is bit `k` of `x` for every `k < 64`,
and rotating it on by `64 - n` gives `x` back. -/
theorem ROTL64_is_rotation (x n : Nat) (hx : x < 2 ^ 64) (h1 : 1 ≤ n) (h2 : n ≤ 63) :
    ROTL64 x n = ((x <<< n) % 2 ^ 64) ||| (x >>> (64 - n)) ∧
      ROTL64 x n < 2 ^ 64 ∧
      (∀ k, k < 64 → (ROTL64 x n).testBit ((k + n) % 64) = x.testBit k) ∧
      ROTL64 (ROTL64 x n) (64 - n) = x := by
  refine ⟨rfl, ROTL64_lt x n hx, ?_, ?_⟩
  · intro k hk
    rw [testBit_ROTL64 x n _ hx h1 h2 (Nat.mod_lt _ (by decide))]
    congr 1
    omega
  · apply Nat.eq_of_testBit_eq
    intro j
    by_cases hj : j < 64
    · rw [testBit_ROTL64 _ (64 - n) j (ROTL64_lt x n hx) (by omega) (by omega) hj,
        testBit_ROTL64 x n _ hx h1 h2 (Nat.mod_lt _ (by decide))]
      congr 1
      omega
    · have hp : (2 : Nat) ^ 64 ≤ 2 ^ j := Nat.pow_le_pow_right (by decide) (by omega)
      rw [Nat.testBit_lt_two_pow (Nat.lt_of_lt_of_le (ROTL64_lt _ _ (ROTL64_lt x n hx)) hp),
        Nat.testBit_lt_two_pow (Nat.lt_of_lt_of_le hx hp)]

/-- Witness of C18: the word `0x8000000000000001` rotated by 1. -/
theorem ROTL64_is_rotation_witness :
    ROTL64 (ROTL64 0x8000000000000001 1) (64 - 1) = 0x8000000000000001 :=
  (ROTL64_is_rotation 0x8000000000000001 1 (by decide) (by decide) (by decide)).2.2.2

/-- C19: the tables agree with Keccak-f[1600]: along the chain `s 0 = 1`,
`s (i + 1) = keccakf_piln[i]`, with `s i = x + 5y`, the entry `keccakf_piln[i]`
is `y + 5 * ((2x + 3y) % 5)`; the 24 entries are pairwise distinct, are exactly
the lanes 1..24, and the last one is 1; and `keccakf_rotc[i]` is
`((i + 1) * (i + 2) / 2) % 64`. -/
theorem tables_match_keccak :
    piChain 0 = 1 ∧
      (∀ i, i < 24 → piChain (i + 1) = keccakf_piln.getD i 0) ∧
      (∀ i, i < 24 →
        keccakf_piln.getD i 0 =
          piChain i / 5 + 5 * ((2 * (piChain i % 5) + 3 * (piChain i / 5)) % 5)) ∧
      keccakf_piln.length = 24 ∧ keccakf_piln.Nodup ∧
      (∀ m, m < 25 → (m ∈ keccakf_piln ↔ 1 ≤ m)) ∧
      (∀ m, m ∈ keccakf_piln → m < 25) ∧
      keccakf_piln.getD 23 0 = 1 ∧
      keccakf_rotc.length = 24 ∧
      (∀ i, i < 24 → keccakf_rotc.getD i 0 = ((i + 1) * (i + 2) / 2) % 64) := by
  refine ⟨rfl, by decide, by decide, rfl, by decide, by decide, by decide, rfl, rfl, by decide⟩

/-! ## XOR of a block into the state -/

theorem specXorBlock_getD (block state : List Nat) (i : Nat) (hi : i < state.length) :
    (specXorBlock block state).getD i 0 =
      if i < 17 then state.getD i 0 ^^^ leWord64 ((block.drop (8 * i)).take 8)
      else state.getD i 0 := by
  rw [List.getD_eq_getElem?_getD, specXorBlock, List.getElem?_mapIdx,
    List.getD_eq_getElem?_getD, List.getElem?_eq_getElem hi]
  rfl

theorem specXorBlock_frame (block state : List Nat) (i : Nat) (hi : 17 ≤ i) :
    (specXorBlock block state).getD i 0 = state.getD i 0 := by
  rw [List.getD_eq_getElem?_getD, specXorBlock, List.getElem?_mapIdx,
    List.getD_eq_getElem?_getD]
  have : ¬ i < 17 := by omega
  simp [this]

/-- C17: the XOR-into-state step, both for the final padded block (`absorbTemp`)
and for a full input block at the cursor (`absorbInput`), keeps the state at 25
lanes, replaces lane `i < 17` by its old value XOR the little-endian word of
block bytes `8i .. 8i+7`, and leaves lanes 17..24 as they were; the rate is
17 lanes = 136 bytes and the capacity 8 lanes = 64 bytes, 200 bytes in all. -/
theorem xor_block_frame (temp state input : List Nat) (s : Sponge)
    (hst : state.length = 25) (hs : s.state.length = 25)
    (htl : temp.length = 136) (htb : ∀ m, temp.getD m 0 < 256)
    (hin : s.idx + 136 ≤ input.length) (hib : ∀ b ∈ input, b < 256) :
    ((absorbTemp temp state).length = 25 ∧
      (∀ i, i < 17 → (absorbTemp temp state).getD i 0 =
        state.getD i 0 ^^^ leWord64 ((temp.drop (8 * i)).take 8)) ∧
      (∀ i, 17 ≤ i → (absorbTemp temp state).getD i 0 = state.getD i 0)) ∧
    ((absorbInput input s).state.length = 25 ∧
      (∀ i, i < 17 → (absorbInput input s).state.getD i 0 =
        s.state.getD i 0 ^^^
          leWord64 ((((input.drop s.idx).take 136).drop (8 * i)).take 8)) ∧
      (∀ i, 17 ≤ i → (absorbInput input s).state.getD i 0 = s.state.getD i 0)) ∧
    SHA3_256_RATE = 17 * 8 ∧ SHA3_256_RATE + 8 * 8 = 25 * 8 ∧ 25 * 8 = 200 := by
  have e1 := absorbTemp_eq temp state htl htb
  have e2 : (absorbInput input s).state = specXorBlock ((input.drop s.idx).take 136) s.state := by
    rw [(absorbInput_spec input s).1, xorInputAt_eq input s.idx s.state hin hib]
  rw [e1, e2]
  refine ⟨⟨?_, ?_, fun i hi => specXorBlock_frame _ _ i hi⟩,
    ⟨?_, ?_, fun i hi => specXorBlock_frame _ _ i hi⟩, rfl, rfl, rfl⟩
  · rw [specXorBlock, List.length_mapIdx, hst]
  · intro i hi
    rw [specXorBlock_getD _ _ i (by omega), if_pos hi]
  · rw [specXorBlock, List.length_mapIdx, hs]
  · intro i hi
    rw [specXorBlock_getD _ _ i (by omega), if_pos hi]

/-- Witness of C17: a block of 136 bytes `1` and the all-zero state, as the
final block and as the input block at cursor 0. -/
theorem xor_block_frame_witness :
    (∀ i, 17 ≤ i →
      (absorbTemp (List.replicate 136 1) (List.replicate 25 0)).getD i 0 =
        (List.replicate 25 0).getD i 0) ∧
    (∀ i, 17 ≤ i →
      (absorbInput (List.replicate 136 1)
        { state := List.replicate 25 0, idx := 0, calls := 0, reads := [] }).state.getD i 0 =
        (List.replicate 25 0).getD i 0) :=
  have h := xor_block_frame (List.replicate 136 1) (List.replicate 25 0)
    (List.replicate 136 1) { state := List.replicate 25 0, idx := 0, calls := 0, reads := [] }
    (by simp) (by simp) (by simp)
    (by
      intro m
      rw [List.getD_eq_getElem?_getD, List.getElem?_replicate]
      split <;> simp)
    (by simp)
    (by
      intro b hb
      rw [List.eq_of_mem_replicate hb]
      decide)
  ⟨h.1.2.2, h.2.1.2.2⟩

/-! ## Injectivity of the padding -/

theorem specPad_length_eq (t1 t2 : List Nat) (h1 : t1.length < 136) (h2 : t2.length < 136)
    (h : specPad t1 = specPad t2) : ¬ t1.length < t2.length := by
  intro hlt
  have e := congrArg (fun l => l[t2.length]?) h
  simp only [specPad_getElem? t1 h1, specPad_getElem? t2 h2, h2, if_true] at e
  by_cases h135 : t2.length = 135
  · have n1 : ¬ t1.length = 135 := by omega
    simp [h135, n1] at e
  · have n1 : ¬ t2.length = t1.length := by omega
    have n2 : ¬ t2.length < t1.length := by omega
    simp [h135, n1, n2] at e

theorem specPad_inj (t1 t2 : List Nat) (h1 : t1.length < 136) (h2 : t2.length < 136)
    (h : specPad t1 = specPad t2) : t1 = t2 := by
  have hl : t1.length = t2.length := by
    have a := specPad_length_eq t1 t2 h1 h2 h
    have b := specPad_length_eq t2 t1 h2 h1 h.symm
    omega
  apply List.ext_getElem?
  intro m
  by_cases hm : m < t1.length
  · have e := congrArg (fun l => l[m]?) h
    have hm2 : m < t2.length := by omega
    simp only [specPad_getElem? t1 h1, specPad_getElem? t2 h2,
      show m < 136 by omega, show ¬ m = 135 by omega, show ¬ m = t1.length by omega,
      show ¬ m = t2.length by omega, hm, hm2, if_true, if_false, Option.some.injEq,
      List.getD_eq_getElem?_getD, List.getElem?_eq_getElem hm,
      List.getElem?_eq_getElem hm2, Option.getD_some] at e
    rw [List.getElem?_eq_getElem hm, List.getElem?_eq_getElem hm2, e]
  · rw [List.getElem?_eq_none (by omega), List.getElem?_eq_none (by omega)]

theorem take_of_specBlocks_eq (x y : List Nat) (n : Nat)
    (h : ∀ k, k < n → (x.drop (136 * k)).take 136 = (y.drop (136 * k)).take 136) :
    ∀ k, k ≤ n → x.take (136 * k) = y.take (136 * k) := by
  intro k
  induction k with
  | zero => intro _; simp
  | succ k ih =>
    intro hk
    rw [show 136 * (k + 1) = 136 * k + 136 by omega, List.take_add, List.take_add,
      ih (by omega), h k (by omega)]

theorem specBlockSeq_inj (x y : List Nat) (h : specBlockSeq x = specBlockSeq y) : x = y := by
  obtain ⟨hb, hp⟩ := List.append_inj' h rfl
  have hn : x.length / 136 = y.length / 136 := by
    have := congrArg List.length hb
    simpa [specBlocks] using this
  have hblocks : ∀ k, k < x.length / 136 →
      (x.drop (136 * k)).take 136 = (y.drop (136 * k)).take 136 := by
    intro k hk
    rw [specBlocks, specBlocks, ← hn] at hb
    exact List.map_inj_left.1 hb k (List.mem_range.2 hk)
  have htake := take_of_specBlocks_eq x y _ hblocks _ (Nat.le_refl _)
  have hx := Nat.div_add_mod x.length 136
  have hy := Nat.div_add_mod y.length 136
  have hxr : x.length % 136 < 136 := Nat.mod_lt _ (by decide)
  have hyr : y.length % 136 < 136 := Nat.mod_lt _ (by decide)
  have htail : x.drop (136 * (x.length / 136)) = y.drop (136 * (x.length / 136)) := by
    rw [← hn] at hp
    simp only [List.cons.injEq, and_true] at hp
    apply specPad_inj _ _ _ _ hp
    · rw [List.length_drop]
      omega
    · rw [List.length_drop]
      omega
  rw [← List.take_append_drop (136 * (x.length / 136)) x, htake, htail,
    List.take_append_drop]

theorem specSponge_eq_foldl (x : List Nat) :
    specSponge x =
      (specBlockSeq x).foldl (fun st block => keccakf (specXorBlock block st))
        (List.replicate 25 0) := by
  rw [specBlockSeq, List.foldl_append]
  simp only [specSponge, List.foldl_cons, List.foldl_nil]

/-- C20: for byte sequences `x` and `y`, `sha3_256_sw` presents to the
permutation the blocks of `specBlockSeq` (the full 136-byte blocks, then the
padded final block), and this sequence determines the message: distinct
messages, whether they differ in length or in content, give distinct block
sequences. -/
theorem padding_injective (x y output : List Nat)
    (hx : ∀ b ∈ x, b < 256) (hy : ∀ b ∈ y, b < 256) :
    (sha3_256_sw x x.length output).state =
        (specBlockSeq x).foldl (fun st block => keccakf (specXorBlock block st))
          (List.replicate 25 0) ∧
      (sha3_256_sw y y.length output).state =
        (specBlockSeq y).foldl (fun st block => keccakf (specXorBlock block st))
          (List.replicate 25 0) ∧
      (∀ block ∈ specBlockSeq x, block.length = 136) ∧
      (specBlockSeq x = specBlockSeq y → x = y) ∧
      (x ≠ y → specBlockSeq x ≠ specBlockSeq y) := by
  refine ⟨?_, ?_, ?_, specBlockSeq_inj x y, fun hne h => hne (specBlockSeq_inj x y h)⟩
  · rw [(run_state_eq_spec x x.length output (Nat.le_refl _) hx).2, List.take_length,
      specSponge_eq_foldl]
  · rw [(run_state_eq_spec y y.length output (Nat.le_refl _) hy).2, List.take_length,
      specSponge_eq_foldl]
  · intro block hblock
    have hxd := Nat.div_add_mod x.length 136
    have hxr : x.length % 136 < 136 := Nat.mod_lt _ (by decide)
    rw [specBlockSeq, List.mem_append, List.mem_singleton] at hblock
    rcases hblock with hb | hb
    · rw [specBlocks, List.mem_map] at hb
      obtain ⟨k, hk, rfl⟩ := hb
      have hk' : k < x.length / 136 := List.mem_range.1 hk
      have : (k + 1) * 136 ≤ x.length / 136 * 136 := Nat.mul_le_mul_right _ hk'
      rw [List.length_take, List.length_drop]
      omega
    · rw [hb]
      have hl : (x.drop (136 * (x.length / 136))).length = x.length % 136 := by
        rw [List.length_drop]
        omega
      apply length_eq_of_getElem?
      intro m
      rw [specPad_getElem? _ (by rw [hl]; exact hxr) m]
      by_cases h : m < 136 <;> simp [h]

/-- Witness of C20: the messages `abc` and `abd`. -/
theorem padding_injective_witness :
    specBlockSeq [0x61, 0x62, 0x63] ≠ specBlockSeq [0x61, 0x62, 0x64] :=
  (padding_injective [0x61, 0x62, 0x63] [0x61, 0x62, 0x64] [] (by decide) (by decide)).2.2.2.2
    (by decide)

/-! ## Every array access is in range -/

theorem rd_eq (a : List Nat) (i : Nat) (h : i < a.length) : rd a i = some (a.getD i 0) := by
  rw [rd, List.getD_eq_getElem?_getD, List.getElem?_eq_getElem h]
  rfl

theorem wr_eq (a : List Nat) (i v : Nat) (h : i < a.length) : wr a i v = some (a.set i v) := by
  rw [wr, if_pos h]

theorem forLoopM_eq {σ : Type} (bodyM : Nat → σ → Option σ) (body : Nat → σ → σ) :
    ∀ (n start : Nat) (s : σ) (P : Nat → σ → Prop), P 0 s →
      (∀ k t, k < n → P k t →
        bodyM (start + k) t = some (body (start + k) t) ∧ P (k + 1) (body (start + k) t)) →
      forLoopM bodyM n start s = some (forLoop body n start s) := by
  intro n
  induction n with
  | zero => intro start s P _ _; rfl
  | succ n ih =>
    intro start s P h0 hstep
    have h := hstep 0 s (Nat.succ_pos n) h0
    rw [Nat.add_zero] at h
    rw [forLoopM, forLoop, h.1, Option.some_bind]
    apply ih (start + 1) (body start s) (fun k t => P (k + 1) t) h.2
    intro k t hk hP
    have := hstep (k + 1) t (Nat.succ_lt_succ hk) hP
    rwa [show start + (k + 1) = start + 1 + k by omega] at this

theorem thetaChk_eq (st : List Nat) (h : st.length = 25) :
    thetaChk ROTL64 st = some (theta ROTL64 st) := by
  obtain ⟨a0, a1, a2, a3, a4, a5, a6, a7, a8, a9, a10, a11, a12, a13, a14, a15, a16, a17,
    a18, a19, a20, a21, a22, a23, a24, rfl⟩ := list25 st h
  simp only [thetaChk, thetaApplyChk, thetaParityChk, forLoopM, forStepM, rd, wr,
    theta, thetaApply, thetaParity, forLoop, forStep,
    List.getElem?_cons_zero, List.getElem?_cons_succ, List.length_cons, List.length_nil,
    List.getD_cons_zero, List.getD_cons_succ, List.set_cons_zero, List.set_cons_succ,
    Nat.reduceAdd, Nat.reduceMod, Nat.reduceLT, if_true,
    Option.bind_eq_bind, Option.some_bind]

theorem piln_lt : ∀ i, i < 24 → keccakf_piln.getD i 0 < 25 := by
  decide

theorem rhoPiChk_eq (st : List Nat) (h : st.length = 25) :
    rhoPiChk ROTL64 st = some (rhoPi ROTL64 st) := by
  have hloop := forLoopM_eq (rhoPiStepChk ROTL64) (rhoPiStep ROTL64) 24 0 (st.getD 1 0, st)
    (fun _ p => p.2.length = 25) h
    (by
      intro k p hk hp
      have hi : 0 + k < 24 := by omega
      have hj := piln_lt (0 + k) hi
      refine ⟨?_, ?_⟩
      · simp only [rhoPiStepChk, rhoPiStep, rd_eq keccakf_piln (0 + k) hi,
          rd_eq keccakf_rotc (0 + k) hi, rd_eq p.2 _ (by rw [hp]; exact hj),
          wr_eq p.2 _ _ (by rw [hp]; exact hj), Option.bind_eq_bind, Option.some_bind,
          Option.pure_def]
      · simp only [rhoPiStep, List.length_set]
        exact hp)
  simp only [rhoPiChk, rhoPi, rd_eq st 1 (by omega), hloop, Option.bind_eq_bind,
    Option.some_bind, Option.pure_def]

theorem chiChk_eq (st : List Nat) (h : st.length = 25) : chiChk st = some (chi st) := by
  obtain ⟨a0, a1, a2, a3, a4, a5, a6, a7, a8, a9, a10, a11, a12, a13, a14, a15, a16, a17,
    a18, a19, a20, a21, a22, a23, a24, rfl⟩ := list25 st h
  simp only [chiChk, chiRowChk, forLoopM, forStepM, rd, wr, chi, chiRow, forLoop, forStep,
    List.getElem?_cons_zero, List.getElem?_cons_succ, List.length_cons, List.length_nil,
    List.getD_cons_zero, List.getD_cons_succ, List.set_cons_zero, List.set_cons_succ,
    Nat.reduceAdd, Nat.reduceMod, Nat.reduceLT, if_true,
    Option.bind_eq_bind, Option.some_bind]

theorem iotaChk_eq (round : Nat) (st : List Nat) (h : st.length = 25) (hr : round < 24) :
    iotaChk round st = some (iota round st) := by
  simp only [iotaChk, iota, rd_eq st 0 (by omega), rd_eq keccakf_rndc round hr,
    wr_eq st 0 _ (by omega), Option.bind_eq_bind, Option.some_bind]

theorem keccakRoundChk_eq (round : Nat) (st : List Nat) (h : st.length = 25)
    (hr : round < 24) :
    keccakRoundChk ROTL64 round st = some (keccakRound ROTL64 round st) := by
  have h1 := theta_length st h
  have h2 := rhoPi_length _ h1
  have h3 := chi_length _ h2
  simp only [keccakRoundChk, keccakRound, thetaChk_eq st h, rhoPiChk_eq _ h1, chiChk_eq _ h2,
    iotaChk_eq round _ h3 hr, Option.bind_eq_bind, Option.some_bind]

theorem keccakfChk_eq (st : List Nat) (h : st.length = 25) :
    keccakfChk st = some (keccakf st) :=
  forLoopM_eq (keccakRoundChk ROTL64) (keccakRound ROTL64) 24 0 st
    (fun _ t => t.length = 25) h
    (fun k t hk ht =>
      ⟨keccakRoundChk_eq _ t ht (by omega), keccakRound_length _ t ht⟩)

theorem readInputChk_eq (input : List Nat) (t : Sponge) (h : t.idx < input.length) :
    readInputChk input t = some (readInput input t) := by
  simp only [readInputChk, readInput, rd_eq input t.idx h, Option.bind_eq_bind,
    Option.some_bind, Option.pure_def]

theorem readWordChk_eq (input : List Nat) (s : Sponge) (h : s.idx + 8 ≤ input.length) :
    readWordChk input s = some (readWord input s) :=
  forLoopM_eq _ _ 8 0 (0, s) (fun k p => p.2.idx = s.idx + k) rfl
    (by
      intro k p hk hp
      refine ⟨?_, ?_⟩
      · simp only [readInputChk_eq input p.2 (by rw [hp]; omega), Option.bind_eq_bind,
          Option.some_bind, Option.pure_def]
      · simp only [readInput, hp]
        omega)

theorem absorbInputChk_eq (input : List Nat) (s : Sponge)
    (h : s.idx + 136 ≤ input.length) (hs : s.state.length = 25) :
    absorbInputChk input s = some (absorbInput input s) := by
  have e : SHA3_256_RATE / 8 = 17 := by norm_num [SHA3_256_RATE]
  unfold absorbInputChk absorbInput
  rw [e]
  exact forLoopM_eq _ _ 17 0 s (fun k t => t.idx = s.idx + 8 * k ∧ t.state.length = 25)
    ⟨rfl, hs⟩
    (by
      intro k t hk ⟨hidx, hst⟩
      obtain ⟨_, w2, w3, _, _⟩ := readWord_spec input t
      have hk' : 0 + k < (readWord input t).2.state.length := by
        rw [w2, hst]
        omega
      refine ⟨?_, ?_, ?_⟩
      · simp only [readWordChk_eq input t (by rw [hidx]; omega), rd_eq _ _ hk',
          wr_eq _ _ _ hk', Option.bind_eq_bind, Option.some_bind, Option.pure_def]
      · simp only [w3, hidx]
        omega
      · simp only [List.length_set, w2, hst])

theorem absorbInput_state_length (input : List Nat) (s : Sponge) (hs : s.state.length = 25) :
    (absorbInput input s).state.length = 25 := by
  rw [(absorbInput_spec input s).1, xorInputAt, List.length_mapIdx, hs]

theorem absorbLoopChk_eq (input : List Nat) (len : Nat) :
    ∀ s : Sponge, s.idx + len ≤ input.length → s.state.length = 25 →
      absorbLoopChk input len s = some (absorbLoop input len s) ∧
        (absorbLoop input len s).2.state.length = 25 := by
  induction len using Nat.strong_induction_on with
  | _ len ih =>
    intro s hlen hs
    by_cases h : len < 136
    · rw [absorbLoopChk, if_neg (by simp only [SHA3_256_RATE]; omega), absorbLoop_lt _ _ _ h]
      exact ⟨rfl, hs⟩
    · have hge : 136 ≤ len := Nat.le_of_not_lt h
      have hl := absorbInput_state_length input s hs
      have hidx := (absorbInput_spec input s).2.1
      have hk := keccakf_length _ hl
      have := ih (len - 136) (by omega)
        { absorbInput input s with
          state := keccakf (absorbInput input s).state,
          calls := (absorbInput input s).calls + 1 }
        (by simp only [hidx]; omega) (by dsimp only; exact hk)
      rw [absorbLoopChk, if_pos (by simp only [SHA3_256_RATE]; exact hge),
        absorbInputChk_eq input s (by omega) hs]
      simp only [keccakfChk_eq _ hl, SHA3_256_RATE]
      rw [absorbLoop_ge _ _ _ hge]
      exact this

theorem fillTemp_length (input : List Nat) (len : Nat) (s : Sponge) :
    (fillTemp input len s).1.length = 136 :=
  forLoop_inv _ len 0 (List.replicate SHA3_256_RATE 0, s) (fun _ p => p.1.length = 136)
    (by simp [SHA3_256_RATE])
    (by
      intro k p _ hp
      simp only [List.length_set]
      exact hp)

theorem fillTempChk_eq (input : List Nat) (len : Nat) (s : Sponge)
    (hr : len ≤ 136) (h : s.idx + len ≤ input.length) :
    fillTempChk input len s = some (fillTemp input len s) :=
  forLoopM_eq _ _ len 0 (List.replicate SHA3_256_RATE 0, s)
    (fun k p => p.1.length = 136 ∧ p.2.idx = s.idx + k)
    ⟨by simp [SHA3_256_RATE], rfl⟩
    (by
      intro k p hk ⟨hl, hidx⟩
      refine ⟨?_, ?_, ?_⟩
      · simp only [readInputChk_eq input p.2 (by rw [hidx]; omega),
          wr_eq p.1 _ _ (show 0 + k < p.1.length by rw [hl]; omega), Option.bind_eq_bind,
          Option.some_bind, Option.pure_def]
      · simp only [List.length_set]
        exact hl
      · simp only [readInput, hidx]
        omega)

theorem padTempChk_eq (len : Nat) (temp : List Nat) (hl : temp.length = 136)
    (hr : len < 136) : padTempChk len temp = some (padTemp len temp) := by
  have h135 : SHA3_256_RATE - 1 < (temp.set len 0x06).length := by
    rw [List.length_set, hl]
    decide
  simp only [padTempChk, padTemp, wr_eq temp len _ (by rw [hl]; exact hr),
    rd_eq _ _ h135, wr_eq _ _ _ h135, Option.bind_eq_bind, Option.some_bind]

theorem tempWordChk_eq (temp : List Nat) (i : Nat) (hl : temp.length = 136) (hi : i < 17) :
    tempWordChk temp i = some (tempWord temp i) :=
  forLoopM_eq _ _ 8 0 0 (fun _ _ => True) trivial
    (by
      intro k w hk _
      refine ⟨?_, trivial⟩
      simp only [rd_eq temp (i * 8 + (0 + k)) (by rw [hl]; omega), Option.bind_eq_bind,
        Option.some_bind, Option.pure_def])

theorem absorbTempChk_eq (temp state : List Nat) (hl : temp.length = 136)
    (hs : state.length = 25) : absorbTempChk temp state = some (absorbTemp temp state) := by
  have e : SHA3_256_RATE / 8 = 17 := by norm_num [SHA3_256_RATE]
  unfold absorbTempChk absorbTemp
  rw [e]
  exact forLoopM_eq _ _ 17 0 state (fun _ t => t.length = 25) hs
    (by
      intro k t hk ht
      have hk' : 0 + k < t.length := by
        rw [ht]
        omega
      refine ⟨?_, ?_⟩
      · simp only [tempWordChk_eq temp (0 + k) hl (by omega), rd_eq t _ hk',
          wr_eq t _ _ hk', Option.bind_eq_bind, Option.some_bind]
      · simp only [List.length_set]
        exact ht)

theorem squeezeChk_eq (state output : List Nat) (hs : state.length = 25)
    (ho : 32 ≤ output.length) : squeezeChk state output = some (squeeze state output) :=
  forLoopM_eq _ _ 4 0 output (fun _ out => out.length = output.length) rfl
    (by
      intro i out hi hout
      refine ⟨?_, ?_⟩
      · exact forLoopM_eq _ _ 8 0 out (fun _ o => o.length = output.length) hout
          (by
            intro j o hj ho'
            refine ⟨?_, ?_⟩
            · simp only [rd_eq state (0 + i) (by rw [hs]; omega),
                wr_eq o ((0 + i) * 8 + (0 + j)) _ (by rw [ho']; omega),
                Option.bind_eq_bind, Option.some_bind]
            · simp only [List.length_set]
              exact ho')
      · exact forLoop_inv _ 8 0 out (fun _ o => o.length = output.length) hout
          (by
            intro j o _ ho'
            simp only [List.length_set]
            exact ho'))

/-- The checked run is defined and agrees with `sha3_256_sw` whenever the
input buffer holds `len` bytes and the output buffer 32. -/
theorem sha3_256_swChk_eq (input : List Nat) (len : Nat) (output : List Nat)
    (hlen : len ≤ input.length) (hout : 32 ≤ output.length) :
    sha3_256_swChk input len output = some (sha3_256_sw input len output) := by
  have hr : len % 136 < 136 := Nat.mod_lt _ (by decide)
  have hdm := Nat.div_add_mod len 136
  obtain ⟨a1, _, a3, _⟩ := absorbLoop_init input len
  obtain ⟨ha, hal⟩ := absorbLoopChk_eq input len
    { state := List.replicate 25 0, idx := 0, calls := 0, reads := [] }
    (by simp only [Nat.zero_add]; exact hlen) (by simp)
  have hf := fillTempChk_eq input (len % 136)
    (absorbLoop input len
      { state := List.replicate 25 0, idx := 0, calls := 0, reads := [] }).2
    (by omega) (by rw [a3]; omega)
  have hfl := fillTemp_length input (len % 136)
    (absorbLoop input len
      { state := List.replicate 25 0, idx := 0, calls := 0, reads := [] }).2
  have hfs := (fillTemp_spec input (len % 136)
    (absorbLoop input len
      { state := List.replicate 25 0, idx := 0, calls := 0, reads := [] }).2).2.1
  have hp := padTempChk_eq (len % 136) _ hfl hr
  have hpl := padTemp_length input (len % 136)
    (absorbLoop input len
      { state := List.replicate 25 0, idx := 0, calls := 0, reads := [] }).2 hr
  have hat := absorbTempChk_eq _
    (fillTemp input (len % 136)
      (absorbLoop input len
        { state := List.replicate 25 0, idx := 0, calls := 0, reads := [] }).2).2.state
    hpl (by rw [hfs]; exact hal)
  have hatl : (absorbTemp (padTemp (len % 136) (fillTemp input (len % 136)
      (absorbLoop input len
        { state := List.replicate 25 0, idx := 0, calls := 0, reads := [] }).2).1)
      (fillTemp input (len % 136)
        (absorbLoop input len
          { state := List.replicate 25 0, idx := 0, calls := 0, reads := [] }).2).2.state).length
      = 25 := by
    rw [absorbTemp_eq _ _ hpl (padTemp_lt input _ _ hr), specXorBlock, List.length_mapIdx,
      hfs]
    exact hal
  have hk := keccakfChk_eq _ hatl
  have hsq := squeezeChk_eq _ output (keccakf_length _ hatl) hout
  simp only [sha3_256_swChk, sha3_256_sw, ha, a1, hf, hp, hat, hk, hsq, Option.bind_eq_bind,
    Option.some_bind, Option.pure_def]

/-- C11: when the input buffer holds at least `len` bytes and the output
buffer at least 32, `sha3_256_sw` completes and every array access of the
call is inside its array (the run with all accesses checked is defined and is
the run of `sha3_256_sw`): the input indices read are exactly `0..len-1`,
each once and in increasing order, all inside the buffer; the index `len` of
the write `temp[len]` after the loop is below 136; every lane index
`keccakf_piln[i]` is below 25; and the 32 digest bytes are produced. -/
theorem sha3_256_sw_in_bounds (input : List Nat) (len : Nat) (output : List Nat)
    (hlen : len ≤ input.length) (hout : 32 ≤ output.length) :
    sha3_256_swChk input len output = some (sha3_256_sw input len output) ∧
      (sha3_256_sw input len output).reads.reverse = List.range len ∧
      (∀ i ∈ (sha3_256_sw input len output).reads, i < input.length) ∧
      (sha3_256_sw input len output).len < 136 ∧
      (∀ i, i < 24 → keccakf_piln.getD i 0 < 25) ∧
      (sha3_256_sw input len output).output.take 32 =
        specDigest (sha3_256_sw input len output).state := by
  obtain ⟨c1, _, _, _, _, c6⟩ := run_closed_form input len output
  refine ⟨sha3_256_swChk_eq input len output hlen hout, ?_, ?_, ?_, piln_lt, ?_⟩
  · rw [c6, List.reverse_reverse]
  · intro i hi
    rw [c6, List.mem_reverse, List.mem_range] at hi
    omega
  · rw [c1]
    exact Nat.mod_lt _ (by decide)
  · rw [run_output, squeeze_eq _ _ hout,
      List.take_append_of_le_length (by rw [specDigest_length]),
      List.take_of_length_le (by rw [specDigest_length])]

/-- Witness of C11: the message `abc` in a 3-byte buffer. -/
theorem sha3_256_sw_in_bounds_witness :
    sha3_256_swChk [0x61, 0x62, 0x63] 3 (List.replicate 32 0) =
      some (sha3_256_sw [0x61, 0x62, 0x63] 3 (List.replicate 32 0)) :=
  (sha3_256_sw_in_bounds [0x61, 0x62, 0x63] 3 (List.replicate 32 0) (by decide)
    (by decide)).1

/-! ## A buffer shorter than `len` -/

theorem forLoopM_none {σ : Type} (bodyM : Nat → σ → Option σ) (body : Nat → σ → σ) :
    ∀ (j n start : Nat) (s : σ) (P : Nat → σ → Prop), j < n → P 0 s →
      (∀ k t, k < j → P k t →
        bodyM (start + k) t = some (body (start + k) t) ∧ P (k + 1) (body (start + k) t)) →
      (∀ t, P j t → bodyM (start + j) t = none) →
      forLoopM bodyM n start s = none := by
  intro j
  induction j with
  | zero =>
    intro n start s P hj h0 _ hfail
    obtain ⟨n, rfl⟩ : ∃ m, n = m + 1 := ⟨n - 1, by omega⟩
    have h := hfail s h0
    rw [Nat.add_zero] at h
    rw [forLoopM, h]
    rfl
  | succ j ih =>
    intro n start s P hj h0 hstep hfail
    obtain ⟨n, rfl⟩ : ∃ m, n = m + 1 := ⟨n - 1, by omega⟩
    have h := hstep 0 s (Nat.succ_pos j) h0
    rw [Nat.add_zero] at h
    rw [forLoopM, h.1, Option.some_bind]
    apply ih n (start + 1) (body start s) (fun k t => P (k + 1) t) (by omega) h.2
    · intro k t hk hP
      have := hstep (k + 1) t (Nat.succ_lt_succ hk) hP
      rwa [show start + (k + 1) = start + 1 + k by omega] at this
    · intro t hP
      have := hfail t hP
      rwa [show start + (j + 1) = start + 1 + j by omega] at this

theorem rd_none (a : List Nat) (i : Nat) (h : a.length ≤ i) : rd a i = none := by
  rw [rd, List.getElem?_eq_none h]

theorem readInputChk_none (input : List Nat) (t : Sponge) (h : input.length ≤ t.idx) :
    readInputChk input t = none := by
  simp only [readInputChk, rd_none input t.idx h, Option.bind_eq_bind, Option.none_bind]

theorem readWordChk_none (input : List Nat) (s : Sponge)
    (h1 : s.idx ≤ input.length) (h2 : input.length < s.idx + 8) :
    readWordChk input s = none :=
  forLoopM_none _
    (fun j (p : Nat × Sponge) =>
      let b := readInput input p.2
      (p.1 ||| (b.1 <<< (8 * j)) % 2 ^ 64, b.2))
    (input.length - s.idx) 8 0 (0, s) (fun k p => p.2.idx = s.idx + k) (by omega) rfl
    (by
      intro k p hk hp
      refine ⟨?_, ?_⟩
      · simp only [readInputChk_eq input p.2 (by rw [hp]; omega), Option.bind_eq_bind,
          Option.some_bind, Option.pure_def]
      · simp only [readInput, hp]
        omega)
    (by
      intro p hp
      simp only [readInputChk_none input p.2 (by rw [hp]; omega), Option.bind_eq_bind,
        Option.none_bind])

theorem absorbInputChk_none (input : List Nat) (s : Sponge)
    (h1 : s.idx ≤ input.length) (h2 : input.length < s.idx + 136)
    (hs : s.state.length = 25) : absorbInputChk input s = none := by
  have e : SHA3_256_RATE / 8 = 17 := by norm_num [SHA3_256_RATE]
  unfold absorbInputChk
  rw [e]
  exact forLoopM_none _
    (fun i s =>
      let w := readWord input s
      { w.2 with state := w.2.state.set i (w.2.state.getD i 0 ^^^ w.1) })
    ((input.length - s.idx) / 8) 17 0 s
    (fun k t => t.idx = s.idx + 8 * k ∧ t.state.length = 25) (by omega) ⟨rfl, hs⟩
    (by
      intro k t hk ⟨hidx, hst⟩
      obtain ⟨_, w2, w3, _, _⟩ := readWord_spec input t
      have hk' : 0 + k < (readWord input t).2.state.length := by
        rw [w2, hst]
        omega
      refine ⟨?_, ?_, ?_⟩
      · simp only [readWordChk_eq input t (by rw [hidx]; omega), rd_eq _ _ hk',
          wr_eq _ _ _ hk', Option.bind_eq_bind, Option.some_bind, Option.pure_def]
      · simp only [w3, hidx]
        omega
      · simp only [List.length_set, w2, hst])
    (by
      intro t ⟨hidx, _⟩
      simp only [readWordChk_none input t (by rw [hidx]; omega) (by rw [hidx]; omega),
        Option.bind_eq_bind, Option.none_bind])

theorem absorbLoopChk_full_blocks (input : List Nat) (len : Nat) :
    ∀ s : Sponge, s.idx + 136 * (len / 136) ≤ input.length → s.state.length = 25 →
      absorbLoopChk input len s = some (absorbLoop input len s) := by
  induction len using Nat.strong_induction_on with
  | _ len ih =>
    intro s hlen hs
    by_cases h : len < 136
    · rw [absorbLoopChk, if_neg (by simp only [SHA3_256_RATE]; omega), absorbLoop_lt _ _ _ h]
    · have hge : 136 ≤ len := Nat.le_of_not_lt h
      have hd : len / 136 = (len - 136) / 136 + 1 := by omega
      have hl := absorbInput_state_length input s hs
      have hidx := (absorbInput_spec input s).2.1
      have hk := keccakf_length _ hl
      have := ih (len - 136) (by omega)
        { absorbInput input s with
          state := keccakf (absorbInput input s).state,
          calls := (absorbInput input s).calls + 1 }
        (by simp only [hidx]; omega) (by dsimp only; exact hk)
      rw [absorbLoopChk, if_pos (by simp only [SHA3_256_RATE]; exact hge),
        absorbInputChk_eq input s (by omega) hs]
      simp only [keccakfChk_eq _ hl, SHA3_256_RATE]
      rw [absorbLoop_ge _ _ _ hge]
      exact this

theorem absorbLoopChk_none (input : List Nat) (len : Nat) :
    ∀ s : Sponge, s.idx ≤ input.length → input.length < s.idx + 136 * (len / 136) →
      s.state.length = 25 → absorbLoopChk input len s = none := by
  induction len using Nat.strong_induction_on with
  | _ len ih =>
    intro s h1 h2 hs
    have hge : 136 ≤ len := by
      by_cases h : len < 136
      · rw [Nat.div_eq_of_lt h] at h2
        omega
      · omega
    have hd : len / 136 = (len - 136) / 136 + 1 := by omega
    rw [absorbLoopChk, if_pos (by simp only [SHA3_256_RATE]; exact hge)]
    by_cases hblock : input.length < s.idx + 136
    · simp only [absorbInputChk_none input s h1 hblock hs]
    · have hl := absorbInput_state_length input s hs
      have hidx := (absorbInput_spec input s).2.1
      have hk := keccakf_length _ hl
      have := ih (len - 136) (by omega)
        { absorbInput input s with
          state := keccakf (absorbInput input s).state,
          calls := (absorbInput input s).calls + 1 }
        (by simp only [hidx]; omega) (by simp only [hidx]; omega) (by dsimp only; exact hk)
      rw [absorbInputChk_eq input s (by omega) hs]
      simp only [keccakfChk_eq _ hl, SHA3_256_RATE]
      exact this

theorem fillTempChk_none (input : List Nat) (len : Nat) (s : Sponge) (hr : len ≤ 136)
    (h1 : s.idx ≤ input.length) (h2 : input.length < s.idx + len) :
    fillTempChk input len s = none :=
  forLoopM_none _
    (fun i (p : List Nat × Sponge) =>
      let b := readInput input p.2
      (p.1.set i b.1, b.2))
    (input.length - s.idx) len 0 (List.replicate SHA3_256_RATE 0, s)
    (fun k p => p.1.length = 136 ∧ p.2.idx = s.idx + k) (by omega)
    ⟨by simp [SHA3_256_RATE], rfl⟩
    (by
      intro k p hk ⟨hl, hidx⟩
      refine ⟨?_, ?_, ?_⟩
      · simp only [readInputChk_eq input p.2 (by rw [hidx]; omega),
          wr_eq p.1 _ _ (show 0 + k < p.1.length by rw [hl]; omega), Option.bind_eq_bind,
          Option.some_bind, Option.pure_def]
      · simp only [List.length_set]
        exact hl
      · simp only [readInput, hidx]
        omega)
    (by
      intro p ⟨_, hidx⟩
      simp only [readInputChk_none input p.2 (by rw [hidx]; omega), Option.bind_eq_bind,
        Option.none_bind])

/-- With a buffer shorter than `len`, some array access of the call is outside
its array. -/
theorem sha3_256_swChk_none (input : List Nat) (len : Nat) (output : List Nat)
    (hshort : input.length < len) : sha3_256_swChk input len output = none := by
  have hr : len % 136 < 136 := Nat.mod_lt _ (by decide)
  have hdm := Nat.div_add_mod len 136
  by_cases hfull : input.length < 136 * (len / 136)
  · have ha := absorbLoopChk_none input len
      { state := List.replicate 25 0, idx := 0, calls := 0, reads := [] }
      (Nat.zero_le _) (by simp only [Nat.zero_add]; exact hfull) (by simp)
    simp only [sha3_256_swChk, ha, Option.bind_eq_bind, Option.none_bind]
  · obtain ⟨a1, _, a3, _⟩ := absorbLoop_init input len
    have ha := absorbLoopChk_full_blocks input len
      { state := List.replicate 25 0, idx := 0, calls := 0, reads := [] }
      (by simp only [Nat.zero_add]; omega) (by simp)
    have hf := fillTempChk_none input (len % 136)
      (absorbLoop input len
        { state := List.replicate 25 0, idx := 0, calls := 0, reads := [] }).2
      (by omega) (by rw [a3]; omega) (by rw [a3]; omega)
    simp only [sha3_256_swChk, ha, a1, hf, Option.bind_eq_bind, Option.some_bind,
      Option.none_bind]

/-- Counterexample to C12: with an empty buffer and `len = 1` nothing stops
the call before it reads the input. The `while` loop ends normally with
`len = 1` left, index 0 is outside the empty buffer, and the copy loop of
lines 75-76 performs the read `input[0]` all the same, an access outside the
array: the call reads past the end of the buffer instead of refusing the
arguments, and its run is undefined. -/
theorem no_fail_fast_counterexample :
    ([] : List Nat).length < 1 ∧
      absorbLoopChk [] 1 { state := List.replicate 25 0, idx := 0, calls := 0, reads := [] } =
        some (1, { state := List.replicate 25 0, idx := 0, calls := 0, reads := [] }) ∧
      rd ([] : List Nat) 0 = none ∧
      fillTempChk [] 1 { state := List.replicate 25 0, idx := 0, calls := 0, reads := [] } =
        none ∧
      sha3_256_swChk [] 1 (List.replicate 32 0) = none :=
  ⟨by decide,
   by rw [absorbLoopChk, if_neg (by decide)],
   rfl,
   fillTempChk_none [] 1 _ (by decide) (Nat.le_refl _) (by decide),
   sha3_256_swChk_none [] 1 _ (by decide)⟩

/-- C12 (amended): `sha3_256_sw` does not compare `len` with the size of the
buffer and has no failure path. When the buffer holds fewer than `len` bytes,
some array access of the call is outside its array, so the run is undefined:
neither a digest nor a signalled violation is guaranteed. The short buffer is
the only cause: the same call on any buffer that extends the given one to at
least `len` bytes keeps every access inside its array. -/
theorem no_length_check (input : List Nat) (len : Nat) (output : List Nat)
    (hshort : input.length < len) (hout : 32 ≤ output.length) :
    sha3_256_swChk input len output = none ∧
      rd input input.length = none ∧
      ∀ ext : List Nat, len ≤ (input ++ ext).length →
        sha3_256_swChk (input ++ ext) len output =
          some (sha3_256_sw (input ++ ext) len output) :=
  ⟨sha3_256_swChk_none input len output hshort, rd_none input _ (Nat.le_refl _),
   fun ext hext => sha3_256_swChk_eq (input ++ ext) len output hext hout⟩

/-- Witness of C12 (amended): the empty buffer with `len = 1`. -/
theorem no_length_check_witness :
    sha3_256_swChk [] 1 (List.replicate 32 0) = none :=
  (no_length_check [] 1 (List.replicate 32 0) (by decide) (by decide)).1

end Sha3Bench
